import Mathlib

/-!
Verification of the multisweeper grid engine.

The repository contains two variants of the engine:

* the backend module `gameLogic.js` (namespace `GameLogic` below):
  `placeMines` builds the eligible-position list excluding the single safe
  cell, Fisher-Yates shuffles it and takes the first `mineCount` entries;
  `countAdjacentMines` skips mined cells entirely;
* the client module `multisweeper.ts` (namespace `Multisweeper` below):
  `placeMines` rejection-samples random cells, excluding the clipped 3x3
  neighborhood of the first click; `countAdjacentMines` writes the
  sentinel -1 into mined cells.

`createEmptyGrid` and `revealCellsDFS` are semantically identical in the two
variants (the only difference is the representation of the visited set:
a set of string keys versus a 2d boolean array), so they are embedded once.
`checkWin` comes from the client component `app/index.tsx`, and
`revealEndpoint` models the `/reveal` route of the backend server.

Randomness (`Math.random`) is modelled by explicit parameters: the shuffle
receives a function giving the chosen index for each Fisher-Yates step, and
the rejection sampler receives the stream of drawn coordinates.

JavaScript grids are arrays of arrays, so a grid is a `List (List Cell)`;
an index miss (reading a property of `undefined`, which throws a
`TypeError` in the source) is modelled by `Option`/an explicit `thrown`
outcome at the one boundary where the source can actually miss.
-/

structure Cell where
  hasMine : Bool
  adjacentMines : Int
  revealed : Bool
  flagged : Bool
deriving DecidableEq

instance : Inhabited Cell := ⟨⟨false, 0, false, false⟩⟩

abbrev Grid := List (List Cell)

/-- The number of rows, `grid.length` in the source. -/
def numRows (g : Grid) : Nat := g.length

/-- The number of columns, `grid[0].length` in the source (all engine
functions read it once from the first row). -/
def numCols (g : Grid) : Nat := (g.headD []).length

/-- Cell access `grid[r][c]` at coordinates that the source has already
bounds-checked (so the access cannot miss on a rectangular grid). -/
def getCellD (g : Grid) (r c : Nat) : Cell := ((g.getD r []).getD c default)

/-- Cell access as a partial lookup: `none` when either index misses. -/
def getCell? (g : Grid) (r c : Nat) : Option Cell :=
  g[r]?.bind (fun row => row[c]?)

/-- Lookup with possibly negative (JavaScript `undefined`-producing)
coordinates. -/
def lookupCell (g : Grid) (row col : Int) : Option Cell :=
  if 0 ≤ row ∧ 0 ≤ col then getCell? g row.toNat col.toNat else none

/-- In-place update of one cell, `grid[r][c].field = v` in the source. -/
def modifyCell (g : Grid) (r c : Nat) (f : Cell → Cell) : Grid :=
  g.modify (fun row => row.modify f c) r

def setRevealed (g : Grid) (r c : Nat) : Grid :=
  modifyCell g r c (fun cell => { cell with revealed := true })

def setMine (g : Grid) (r c : Nat) : Grid :=
  modifyCell g r c (fun cell => { cell with hasMine := true })

/-- The grid invariant of the data model: every row has the length of the
first row (JavaScript code indexes every row up to `grid[0].length`). -/
def isRect (g : Grid) : Prop := ∀ row ∈ g, row.length = numCols g

instance : DecidablePred isRect := fun g => by
  unfold isRect; infer_instance

/-- Bounds check `r >= 0 && r < rows && c >= 0 && c < cols`. -/
abbrev inBounds (rows cols : Nat) (r c : Int) : Prop :=
  0 ≤ r ∧ r < (rows : Int) ∧ 0 ≤ c ∧ c < (cols : Int)

/-- The direction table shared by every Moore-neighborhood loop in the
source. -/
def mooreDirs : List (Int × Int) :=
  [(-1, -1), (-1, 0), (-1, 1), (0, -1), (0, 1), (1, -1), (1, 0), (1, 1)]

/-- The 9-entry direction table (including `(0,0)`) used to build the
forbidden zone in `Multisweeper.placeMines`. -/
def dirs9 : List (Int × Int) :=
  [(-1, -1), (-1, 0), (-1, 1), (0, -1), (0, 0), (0, 1), (1, -1), (1, 0), (1, 1)]

/-- `createEmptyGrid(rows, cols)`: `rows * cols` cells, all fields
false/zero. -/
def createEmptyGrid (rows cols : Nat) : Grid :=
  List.replicate rows (List.replicate cols ⟨false, 0, false, false⟩)

/-- The inner counting loop shared by both `countAdjacentMines` variants:
the number of directions whose (bounds-checked) neighbor is mined. -/
def countNeighborMines (g : Grid) (r c : Nat) : Nat :=
  (mooreDirs.filter (fun d =>
    decide (inBounds (numRows g) (numCols g) ((r : Int) + d.1) ((c : Int) + d.2)) &&
    (getCellD g ((r : Int) + d.1).toNat ((c : Int) + d.2).toNat).hasMine)).length

namespace Multisweeper

/-- `countAdjacentMines` of `multisweeper.ts`: mined cells receive the
sentinel -1, every other cell receives its Moore-neighbor mine count.
The source mutates `adjacentMines` in place while reading only `hasMine`,
which it never writes, so the loop is equivalent to this map over the
original grid. -/
def countAdjacentMines (g : Grid) : Grid :=
  g.mapIdx (fun r row => row.mapIdx (fun c cell =>
    if cell.hasMine then { cell with adjacentMines := -1 }
    else { cell with adjacentMines := (countNeighborMines g r c : Int) }))

end Multisweeper

namespace GameLogic

/-- `countAdjacentMines` of `gameLogic.js`: mined cells are skipped
(`continue`), every other cell receives its Moore-neighbor mine count. -/
def countAdjacentMines (g : Grid) : Grid :=
  g.mapIdx (fun r row => row.mapIdx (fun c cell =>
    if cell.hasMine then cell
    else { cell with adjacentMines := (countNeighborMines g r c : Int) }))

end GameLogic

/-- One pop of the `revealCellsDFS` loop, iterated on explicit fuel.
`rows`/`cols` are read once before the loop in the source.  The visited
set only ever receives bounds-checked coordinates, hence `Nat` pairs.
The source pushes the eight neighbors onto the array end and pops from the
end, so with a head-is-top list the freshly pushed block appears reversed.
Each iteration pops exactly one entry, and at most `1 + 8 * rows * cols`
entries are ever pushed (the seed, plus eight per revealed cell, and each
in-bounds cell is revealed at most once), so the fuel passed by
`revealCellsDFS` strictly exceeds the number of iterations of the source
loop and the fuel-out branch is never taken for it. -/
def dfsLoop (rows cols : Nat) : Nat → Grid → List (Nat × Nat) → List (Int × Int) → Grid
  | 0, g, _, _ => g
  | _ + 1, g, _, [] => g
  | fuel + 1, g, visited, (r, c) :: rest =>
    if inBounds rows cols r c ∧ (r.toNat, c.toNat) ∉ visited ∧
        (getCellD g r.toNat c.toNat).revealed = false then
      let g2 := setRevealed g r.toNat c.toNat
      let cell := getCellD g2 r.toNat c.toNat
      let stack2 :=
        if cell.adjacentMines = 0 ∧ cell.hasMine = false then
          ((mooreDirs.map (fun d => (r + d.1, c + d.2))).reverse) ++ rest
        else rest
      dfsLoop rows cols fuel g2 ((r.toNat, c.toNat) :: visited) stack2
    else
      dfsLoop rows cols fuel g visited rest

/-- `revealCellsDFS(grid, row, col)` (identical in `gameLogic.js` and
`multisweeper.ts`): iterative flood reveal from the seed using an explicit
stack and a visited set. -/
def revealCellsDFS (g : Grid) (row col : Int) : Grid :=
  dfsLoop (numRows g) (numCols g) (9 * (numRows g * numCols g) + 1) g [] [(row, col)]

namespace GameLogic

/-- The eligible-position list of `gameLogic.js` `placeMines`: row-major
positions of the grid, skipping the single safe cell. -/
def positions (rows cols safeRow safeCol : Nat) : List (Nat × Nat) :=
  ((List.range rows).flatMap (fun r => (List.range cols).map (fun c => (r, c)))).filter
    (fun p => ¬(p.1 = safeRow ∧ p.2 = safeCol))

/-- One Fisher-Yates swap `[positions[i], positions[j]] = [positions[j], positions[i]]`. -/
def swapAt (l : List (Nat × Nat)) (i j : Nat) : List (Nat × Nat) :=
  (l.set i (l.getD j default)).set j (l.getD i default)

/-- The Fisher-Yates loop `for (i = length-1; i > 0; i--)`; `rand i` is the
index `Math.floor(Math.random() * (i + 1))` drawn at step `i`. -/
def fyLoop (rand : Nat → Nat) : Nat → List (Nat × Nat) → List (Nat × Nat)
  | 0, l => l
  | i + 1, l => fyLoop rand i (swapAt l (i + 1) (rand (i + 1)))

def shuffle (l : List (Nat × Nat)) (rand : Nat → Nat) : List (Nat × Nat) :=
  fyLoop rand (l.length - 1) l

/-- Mark `hasMine = true` at each selected position in turn. -/
def setMinesList (g : Grid) (l : List (Nat × Nat)) : Grid :=
  l.foldl (fun g p => setMine g p.1 p.2) g

/-- `placeMines(grid, mineCount, safeRow, safeCol)` of `gameLogic.js`:
shuffle the eligible positions, `slice(0, mineCount)`, mark those cells.
`List.take` matches `slice`: both clamp silently when `mineCount` exceeds
the list length. -/
def placeMines (g : Grid) (mineCount : Nat) (safeRow safeCol : Nat)
    (rand : Nat → Nat) : Grid :=
  setMinesList g ((shuffle (positions (numRows g) (numCols g) safeRow safeCol) rand).take mineCount)

end GameLogic

namespace Multisweeper

/-- The forbidden set built by `multisweeper.ts` `placeMines`: the clicked
cell and its neighbors, clipped to the grid. -/
def forbiddenList (rows cols : Nat) (er ec : Int) : List (Int × Int) :=
  dirs9.filterMap (fun d =>
    if inBounds rows cols (er + d.1) (ec + d.2) then some (er + d.1, ec + d.2) else none)

/-- The rejection-sampling loop `while (placed < mineCount)` of
`multisweeper.ts` `placeMines`, with the stream of drawn coordinates made
explicit.  The source keeps drawing forever; exhausting a finite stream
before `mineCount` mines are placed is reported as `none` (the source
would still be looping at that point). -/
def placeLoop (rows cols : Nat) (forb : List (Int × Int)) (mineCount : Nat) :
    Grid → Nat → List (Nat × Nat) → Option Grid
  | g, placed, draws =>
    if mineCount ≤ placed then some g
    else
      match draws with
      | [] => none
      | (r, c) :: rest =>
        if ((r : Int), (c : Int)) ∉ forb ∧ (getCellD g r c).hasMine = false then
          placeLoop rows cols forb mineCount (setMine g r c) (placed + 1) rest
        else
          placeLoop rows cols forb mineCount g placed rest

/-- `placeMines(grid, mineCount, excludeRow, excludeCol)` of
`multisweeper.ts`. -/
def placeMines (g : Grid) (mineCount : Nat) (excludeRow excludeCol : Int)
    (draws : List (Nat × Nat)) : Option Grid :=
  placeLoop (numRows g) (numCols g)
    (forbiddenList (numRows g) (numCols g) excludeRow excludeCol) mineCount g 0 draws

end Multisweeper

/-- `checkWin(grid)` of `app/index.tsx`: false as soon as some scanned cell
is neither mined nor revealed (the early `return false` of the source), and
true when the scan finishes. -/
def checkWin (g : Grid) : Bool :=
  (List.range (numRows g)).all (fun row =>
    (List.range (numCols g)).all (fun col =>
      !((getCellD g row col).hasMine = false && (getCellD g row col).revealed = false)))

/-- The deep copy `grid.map(row => row.map(cell => ({ ...cell })))` of the
`/reveal` handler: fresh row arrays and fresh cell objects carrying the same
four fields. -/
def deepCopyGrid (g : Grid) : Grid :=
  g.map (fun row => row.map (fun cell =>
    { hasMine := cell.hasMine, adjacentMines := cell.adjacentMines,
      revealed := cell.revealed, flagged := cell.flagged }))

/-- Outcome of the `/reveal` route: the 400 response for a missing or empty
grid, a grid response, or an exception escaping the handler (a JavaScript
`TypeError` from indexing `undefined`). -/
inductive RevealResponse where
  | badRequest : RevealResponse
  | ok : Grid → RevealResponse
  | thrown : RevealResponse
deriving DecidableEq

/-- The `/reveal` handler of the backend server: reject a missing or empty
grid, read `grid[row][col]` (which throws when either index misses), return
the grid unchanged when the target is revealed or flagged, and otherwise
flood a deep copy. -/
def revealEndpoint (input : Option Grid) (row col : Int) : RevealResponse :=
  match input with
  | none => .badRequest
  | some g =>
    if g.length = 0 then .badRequest
    else
      match lookupCell g row col with
      | none => .thrown
      | some cell =>
        if cell.revealed || cell.flagged then .ok g
        else .ok (revealCellsDFS (deepCopyGrid g) row col)

/-- Specification-side Moore-neighbor mine count: the number of grid
positions distinct from `(r, c)`, at Chebyshev distance at most 1 from it,
holding a mine. -/
def specCount (g : Grid) (r c : Nat) : Nat :=
  (((Finset.range (numRows g)) ×ˢ (Finset.range (numCols g))).filter
    (fun p => p ≠ (r, c) ∧ ((p.1 : Int) - r).natAbs ≤ 1 ∧ ((p.2 : Int) - c).natAbs ≤ 1 ∧
      (getCellD g p.1 p.2).hasMine = true)).card

/-- Specification-side mined-cell set: the in-bounds positions holding a
mine. -/
def minedCells (g : Grid) : Finset (Nat × Nat) :=
  ((Finset.range (numRows g)) ×ˢ (Finset.range (numCols g))).filter
    (fun p => (getCellD g p.1 p.2).hasMine = true)

/-- Adjacency counts of a grid are correct: every in-bounds non-mined cell
stores exactly its Moore-neighbor mine count. -/
def countsCorrect (g : Grid) : Prop :=
  ∀ r < numRows g, ∀ c < numCols g,
    (getCellD g r c).hasMine = false →
    (getCellD g r c).adjacentMines = (specCount g r c : Int)

instance : DecidablePred countsCorrect := fun _ => by
  unfold countsCorrect; infer_instance

/-- Apply a transformation to every `flagged` field, leaving every other
field untouched.  Used to state that flood reveal never consults flags. -/
def mapFlagged (f : Bool → Bool) (g : Grid) : Grid :=
  g.map (fun row => row.map (fun cell => { cell with flagged := f cell.flagged }))

/-- The eligible-cell set of the single-cell-exclusion policy
(`gameLogic.js`): every position except the safe cell. -/
def eligibleSingle (rows cols safeRow safeCol : Nat) : Finset (Nat × Nat) :=
  ((Finset.range rows) ×ˢ (Finset.range cols)).filter (fun p => p ≠ (safeRow, safeCol))

/-- The eligible-cell set of the neighborhood-exclusion policy
(`multisweeper.ts`): in-bounds positions outside the 3x3 zone around the
click. -/
def eligibleNbhd (rows cols : Nat) (er ec : Int) : Finset (Nat × Nat) :=
  ((Finset.range rows) ×ˢ (Finset.range cols)).filter
    (fun p => ¬(((p.1 : Int) - er).natAbs ≤ 1 ∧ ((p.2 : Int) - ec).natAbs ≤ 1))

def mineCell : Cell := ⟨true, 0, false, false⟩

def zeroCell : Cell := ⟨false, 0, false, false⟩

/-- The 3x3 concrete scenario of the specification: one mine in the corner. -/
def cornerMineGrid : Grid :=
  [[zeroCell, zeroCell, zeroCell], [zeroCell, zeroCell, zeroCell], [zeroCell, zeroCell, mineCell]]

/-- The corner-mine grid after adjacency counting. -/
def cornerMineCounted : Grid := Multisweeper.countAdjacentMines cornerMineGrid

/-- A degenerate grid whose single cell is a hidden mine. -/
def allMinesGrid : Grid := [[mineCell]]

/-! ## Basic access and update lemmas -/

theorem getCellD_eq (g : Grid) (r c : Nat) :
    getCellD g r c = ((g[r]?.getD [])[c]?).getD default := by
  simp [getCellD, List.getD_eq_getElem?_getD]

theorem getCellD_of_getCell? {g : Grid} {r c : Nat} {cell : Cell}
    (h : getCell? g r c = some cell) : getCellD g r c = cell := by
  rw [getCellD_eq]
  unfold getCell? at h
  cases hr : g[r]? with
  | none => simp [hr] at h
  | some row => simp [hr] at h ⊢; simp [h]

theorem getCell?_eq_some_of_rect {g : Grid} (hrect : isRect g) {r c : Nat}
    (hr : r < numRows g) (hc : c < numCols g) :
    getCell? g r c = some (getCellD g r c) := by
  unfold getCell?
  have hrow : g[r]? = some g[r] := List.getElem?_eq_getElem hr
  have hlen : g[r].length = numCols g := hrect _ (List.getElem_mem hr)
  rw [getCellD_eq, hrow]
  simp [List.getElem?_eq_getElem (hlen ▸ hc)]

theorem getCell?_bounds {g : Grid} (hrect : isRect g) {r c : Nat} {cell : Cell}
    (h : getCell? g r c = some cell) : r < numRows g ∧ c < numCols g := by
  unfold getCell? at h
  cases hr : g[r]? with
  | none => rw [hr] at h; simp at h
  | some row =>
    rw [hr, Option.some_bind] at h
    have h1 : r < g.length := by
      by_contra hn
      rw [List.getElem?_eq_none (by omega)] at hr
      exact Option.noConfusion hr
    have hmem : row ∈ g := List.mem_iff_getElem?.mpr ⟨r, hr⟩
    have h2 : c < row.length := by
      by_contra hn
      rw [List.getElem?_eq_none (by omega : row.length ≤ c)] at h
      exact Option.noConfusion h
    exact ⟨h1, (hrect row hmem) ▸ h2⟩

theorem numRows_modifyCell (g : Grid) (r c : Nat) (f : Cell → Cell) :
    numRows (modifyCell g r c f) = numRows g := by
  simp [numRows, modifyCell]

theorem numCols_modifyCell (g : Grid) (r c : Nat) (f : Cell → Cell) :
    numCols (modifyCell g r c f) = numCols g := by
  unfold numCols modifyCell
  cases g with
  | nil => simp [List.modify_nil]
  | cons row rows =>
    cases r with
    | zero => simp [List.modify_zero_cons, List.length_modify]
    | succ n => simp [List.modify_succ_cons]

theorem getCell?_modifyCell (g : Grid) (r c : Nat) (f : Cell → Cell) (i j : Nat) :
    getCell? (modifyCell g r c f) i j =
      if r = i ∧ c = j then (getCell? g i j).map f else getCell? g i j := by
  unfold getCell? modifyCell
  rw [List.getElem?_modify]
  cases hrow : g[i]? with
  | none => simp
  | some row =>
    simp only [Option.map_some, Option.some_bind]
    by_cases hri : r = i
    · rw [if_pos hri, List.getElem?_modify]
      by_cases hcj : c = j
      · rw [if_pos ⟨hri, hcj⟩]
        cases hcell : row[j]? <;> simp [hcell, hcj]
      · rw [if_neg (by tauto)]
        cases hcell : row[j]? <;> simp [hcell, hcj]
    · rw [if_neg hri, if_neg (by tauto)]

theorem isRect_modifyCell {g : Grid} (hrect : isRect g) (r c : Nat) (f : Cell → Cell) :
    isRect (modifyCell g r c f) := by
  intro row hrow
  rw [numCols_modifyCell]
  rcases List.mem_iff_getElem?.mp hrow with ⟨i, hi⟩
  unfold modifyCell at hi
  rw [List.getElem?_modify] at hi
  cases hg : g[i]? with
  | none => rw [hg] at hi; simp at hi
  | some rowg =>
    rw [hg] at hi
    simp only [Option.map_some, Option.some_inj] at hi
    by_cases hri : r = i
    · rw [if_pos hri] at hi
      subst hi
      rw [List.length_modify]
      exact hrect rowg (List.mem_iff_getElem?.mpr ⟨i, hg⟩)
    · rw [if_neg hri] at hi
      subst hi
      exact hrect rowg (List.mem_iff_getElem?.mpr ⟨i, hg⟩)

theorem numRows_createEmptyGrid (rows cols : Nat) :
    numRows (createEmptyGrid rows cols) = rows := by
  simp [numRows, createEmptyGrid]

theorem numCols_createEmptyGrid {rows : Nat} (cols : Nat) (h : 0 < rows) :
    numCols (createEmptyGrid rows cols) = cols := by
  unfold numCols createEmptyGrid
  cases rows with
  | zero => omega
  | succ n => simp [List.replicate]

theorem getCell?_createEmptyGrid (rows cols r c : Nat) :
    getCell? (createEmptyGrid rows cols) r c =
      if r < rows ∧ c < cols then some ⟨false, 0, false, false⟩ else none := by
  unfold getCell? createEmptyGrid
  by_cases hr : r < rows
  · rw [List.getElem?_replicate_of_lt hr]
    by_cases hc : c < cols
    · simp [List.getElem?_replicate_of_lt hc, hr, hc]
    · rw [Option.some_bind, List.getElem?_eq_none (by simpa using hc)]
      simp [hr, hc]
  · rw [List.getElem?_eq_none (by simpa using hr)]
    simp [hr]

theorem isRect_createEmptyGrid (rows cols : Nat) : isRect (createEmptyGrid rows cols) := by
  intro row hrow
  unfold createEmptyGrid at hrow
  have := List.eq_of_mem_replicate hrow
  subst this
  simp [numCols, createEmptyGrid]
  cases rows with
  | zero => simp at hrow
  | succ n => simp [List.replicate]

theorem numRows_setRevealed (g : Grid) (r c : Nat) : numRows (setRevealed g r c) = numRows g :=
  numRows_modifyCell ..

theorem numCols_setRevealed (g : Grid) (r c : Nat) : numCols (setRevealed g r c) = numCols g :=
  numCols_modifyCell ..

theorem isRect_setRevealed {g : Grid} (hrect : isRect g) (r c : Nat) :
    isRect (setRevealed g r c) := isRect_modifyCell hrect r c _

theorem getCell?_setRevealed (g : Grid) (r c i j : Nat) :
    getCell? (setRevealed g r c) i j =
      if r = i ∧ c = j then (getCell? g i j).map (fun cell => { cell with revealed := true })
      else getCell? g i j :=
  getCell?_modifyCell ..

theorem numRows_setMine (g : Grid) (r c : Nat) : numRows (setMine g r c) = numRows g :=
  numRows_modifyCell ..

theorem numCols_setMine (g : Grid) (r c : Nat) : numCols (setMine g r c) = numCols g :=
  numCols_modifyCell ..

theorem getCell?_setMine (g : Grid) (r c i j : Nat) :
    getCell? (setMine g r c) i j =
      if r = i ∧ c = j then (getCell? g i j).map (fun cell => { cell with hasMine := true })
      else getCell? g i j :=
  getCell?_modifyCell ..

/-! ## Flood-reveal loop lemmas -/

theorem dfsLoop_nil (rows cols fuel : Nat) (g : Grid) (v : List (Nat × Nat)) :
    dfsLoop rows cols fuel g v [] = g := by
  cases fuel <;> rfl

theorem numRows_dfsLoop (rows cols fuel : Nat) (g : Grid) (v : List (Nat × Nat))
    (st : List (Int × Int)) : numRows (dfsLoop rows cols fuel g v st) = numRows g := by
  induction fuel generalizing g v st with
  | zero => rfl
  | succ n ih =>
    cases st with
    | nil => rfl
    | cons p rest =>
      obtain ⟨r, c⟩ := p
      simp only [dfsLoop]
      split
      · rw [ih, numRows_setRevealed]
      · exact ih g v rest

theorem numCols_dfsLoop (rows cols fuel : Nat) (g : Grid) (v : List (Nat × Nat))
    (st : List (Int × Int)) : numCols (dfsLoop rows cols fuel g v st) = numCols g := by
  induction fuel generalizing g v st with
  | zero => rfl
  | succ n ih =>
    cases st with
    | nil => rfl
    | cons p rest =>
      obtain ⟨r, c⟩ := p
      simp only [dfsLoop]
      split
      · rw [ih, numCols_setRevealed]
      · exact ih g v rest

theorem isRect_dfsLoop (rows cols : Nat) :
    ∀ (fuel : Nat) (g : Grid) (v : List (Nat × Nat)) (st : List (Int × Int)),
      isRect g → isRect (dfsLoop rows cols fuel g v st) := by
  intro fuel
  induction fuel with
  | zero => intro g v st h; exact h
  | succ n ih =>
    intro g v st hrect
    cases st with
    | nil => exact hrect
    | cons p rest =>
      obtain ⟨r, c⟩ := p
      simp only [dfsLoop]
      split
      · exact ih _ _ _ (isRect_setRevealed hrect _ _)
      · exact ih _ _ _ hrect

/-- Pointwise description of a full run of the loop: every present cell
keeps its `hasMine`, `flagged` and `adjacentMines` fields, and its
`revealed` field can only be turned on. -/
theorem dfsLoop_cell (rows cols fuel : Nat) (g : Grid) (v : List (Nat × Nat))
    (st : List (Int × Int)) (i j : Nat) :
    ∃ b : Bool, getCell? (dfsLoop rows cols fuel g v st) i j =
      (getCell? g i j).map (fun cell => { cell with revealed := cell.revealed || b }) := by
  induction fuel generalizing g v st with
  | zero =>
    refine ⟨false, ?_⟩
    cases h : getCell? g i j <;> simp [dfsLoop, h]
  | succ n ih =>
    cases st with
    | nil =>
      refine ⟨false, ?_⟩
      cases h : getCell? g i j <;> simp [dfsLoop, h]
    | cons p rest =>
      obtain ⟨r, c⟩ := p
      simp only [dfsLoop]
      split
      · obtain ⟨b, hb⟩ := ih (setRevealed g r.toNat c.toNat) ((r.toNat, c.toNat) :: v) _
        rw [hb, getCell?_setRevealed]
        by_cases hij : r.toNat = i ∧ c.toNat = j
        · refine ⟨true, ?_⟩
          rw [if_pos hij]
          cases h : getCell? g i j <;> simp [h]
        · refine ⟨b, ?_⟩
          rw [if_neg hij]
      · exact ih g v rest

theorem dfsLoop_mono_revealed (rows cols fuel : Nat) {g : Grid} (v : List (Nat × Nat))
    (st : List (Int × Int)) {i j : Nat} {cell : Cell} (hcell : getCell? g i j = some cell)
    (hrev : cell.revealed = true) :
    (getCellD (dfsLoop rows cols fuel g v st) i j).revealed = true := by
  obtain ⟨b, hb⟩ := dfsLoop_cell rows cols fuel g v st i j
  rw [hcell] at hb
  rw [Option.map_some'] at hb
  rw [getCellD_of_getCell? hb]
  simp [hrev]

/-- After a full `revealCellsDFS` run with an in-bounds seed on a
rectangular grid, the seed cell is revealed. -/
theorem revealCellsDFS_seed_revealed {g : Grid} (hrect : isRect g) {row col : Int}
    (hin : inBounds (numRows g) (numCols g) row col) :
    (getCellD (revealCellsDFS g row col) row.toNat col.toNat).revealed = true := by
  have hr : row.toNat < numRows g := by omega
  have hc : col.toNat < numCols g := by omega
  have hget := getCell?_eq_some_of_rect hrect hr hc
  unfold revealCellsDFS
  simp only [dfsLoop]
  by_cases hrev : (getCellD g row.toNat col.toNat).revealed = false
  · rw [if_pos ⟨hin, by simp, hrev⟩]
    have hget2 : getCell? (setRevealed g row.toNat col.toNat) row.toNat col.toNat =
        some { getCellD g row.toNat col.toNat with revealed := true } := by
      rw [getCell?_setRevealed, if_pos ⟨rfl, rfl⟩, hget]
      rfl
    exact dfsLoop_mono_revealed _ _ _ _ _ hget2 rfl
  · rw [if_neg (by tauto), dfsLoop_nil]
    simpa using hrev

/-- Out-of-bounds seeds make `revealCellsDFS` a no-op. -/
theorem revealCellsDFS_oob {g : Grid} {row col : Int}
    (hout : ¬inBounds (numRows g) (numCols g) row col) :
    revealCellsDFS g row col = g := by
  unfold revealCellsDFS
  simp only [dfsLoop]
  rw [if_neg (by tauto), dfsLoop_nil]

/-- Core of the idempotence claim: a second run from the same seed on the
output of a first run returns that output unchanged. -/
theorem revealCellsDFS_twice {g : Grid} (hrect : isRect g) (row col : Int) :
    revealCellsDFS (revealCellsDFS g row col) row col = revealCellsDFS g row col := by
  by_cases hin : inBounds (numRows g) (numCols g) row col
  · have h1 := revealCellsDFS_seed_revealed hrect hin
    generalize hg1 : revealCellsDFS g row col = g1 at h1 ⊢
    unfold revealCellsDFS
    simp only [dfsLoop]
    rw [if_neg (by simp [h1]), dfsLoop_nil]
  · have hfix : revealCellsDFS g row col = g := revealCellsDFS_oob hin
    rw [hfix]
    exact hfix

/-! ## Flag-obliviousness of the flood loop -/

theorem getCellD_eq_getCell? (g : Grid) (r c : Nat) :
    getCellD g r c = (getCell? g r c).getD default := by
  rw [getCellD_eq]
  unfold getCell?
  cases hr : g[r]? with
  | none => simp
  | some row => simp

theorem getCell?_mapFlagged (f : Bool → Bool) (g : Grid) (i j : Nat) :
    getCell? (mapFlagged f g) i j =
      (getCell? g i j).map (fun cell => { cell with flagged := f cell.flagged }) := by
  unfold getCell? mapFlagged
  rw [List.getElem?_map]
  cases hr : g[i]? with
  | none => simp
  | some row => simp [List.getElem?_map]

theorem numRows_mapFlagged (f : Bool → Bool) (g : Grid) :
    numRows (mapFlagged f g) = numRows g := by
  simp [numRows, mapFlagged]

theorem numCols_mapFlagged (f : Bool → Bool) (g : Grid) :
    numCols (mapFlagged f g) = numCols g := by
  unfold numCols mapFlagged
  cases g with
  | nil => rfl
  | cons row rows => simp

theorem getCellD_mapFlagged_revealed (f : Bool → Bool) (g : Grid) (i j : Nat) :
    (getCellD (mapFlagged f g) i j).revealed = (getCellD g i j).revealed := by
  rw [getCellD_eq_getCell?, getCellD_eq_getCell?, getCell?_mapFlagged]
  cases h : getCell? g i j <;> simp

theorem getCellD_mapFlagged_hasMine (f : Bool → Bool) (g : Grid) (i j : Nat) :
    (getCellD (mapFlagged f g) i j).hasMine = (getCellD g i j).hasMine := by
  rw [getCellD_eq_getCell?, getCellD_eq_getCell?, getCell?_mapFlagged]
  cases h : getCell? g i j <;> simp

theorem getCellD_mapFlagged_adjacentMines (f : Bool → Bool) (g : Grid) (i j : Nat) :
    (getCellD (mapFlagged f g) i j).adjacentMines = (getCellD g i j).adjacentMines := by
  rw [getCellD_eq_getCell?, getCellD_eq_getCell?, getCell?_mapFlagged]
  cases h : getCell? g i j <;> simp

theorem modify_map_comm {α : Type} (F : α → α) (fn fn2 : α → α)
    (hcomm : ∀ a, fn (F a) = F (fn2 a)) :
    ∀ (l : List α) (i : Nat), List.modify fn i (l.map F) = (List.modify fn2 i l).map F := by
  intro l
  induction l with
  | nil => intro i; simp [List.modify_nil]
  | cons a t ih =>
    intro i
    cases i with
    | zero => simp [List.modify_zero_cons, hcomm]
    | succ n => simp [List.modify_succ_cons, ih]

theorem setRevealed_mapFlagged (f : Bool → Bool) (g : Grid) (r c : Nat) :
    setRevealed (mapFlagged f g) r c = mapFlagged f (setRevealed g r c) := by
  unfold setRevealed modifyCell mapFlagged
  apply modify_map_comm
  intro row
  apply modify_map_comm
  intro cell
  rfl

/-- The flood loop never consults the `flagged` field: it commutes with any
transformation of the flags. -/
theorem dfsLoop_mapFlagged (rows cols : Nat) (f : Bool → Bool) :
    ∀ (fuel : Nat) (g : Grid) (v : List (Nat × Nat)) (st : List (Int × Int)),
      dfsLoop rows cols fuel (mapFlagged f g) v st =
        mapFlagged f (dfsLoop rows cols fuel g v st) := by
  intro fuel
  induction fuel with
  | zero => intro g v st; rfl
  | succ n ih =>
    intro g v st
    cases st with
    | nil => rfl
    | cons p rest =>
      obtain ⟨r, c⟩ := p
      simp only [dfsLoop]
      by_cases hguard : inBounds rows cols r c ∧ (r.toNat, c.toNat) ∉ v ∧
          (getCellD g r.toNat c.toNat).revealed = false
      · rw [if_pos (by
            refine ⟨hguard.1, hguard.2.1, ?_⟩
            rw [getCellD_mapFlagged_revealed]
            exact hguard.2.2), if_pos hguard]
        rw [setRevealed_mapFlagged, getCellD_mapFlagged_adjacentMines,
          getCellD_mapFlagged_hasMine]
        exact ih _ _ _
      · rw [if_neg (by
            intro hcon
            exact hguard ⟨hcon.1, hcon.2.1, by
              rw [← getCellD_mapFlagged_revealed f g]
              exact hcon.2.2⟩), if_neg hguard]
        exact ih g v rest

/-- Wrapper form of flag obliviousness for `revealCellsDFS`. -/
theorem revealCellsDFS_mapFlagged (f : Bool → Bool) (g : Grid) (row col : Int) :
    revealCellsDFS (mapFlagged f g) row col = mapFlagged f (revealCellsDFS g row col) := by
  unfold revealCellsDFS
  rw [numRows_mapFlagged, numCols_mapFlagged]
  exact dfsLoop_mapFlagged _ _ f _ g _ _

/-! ## Mine safety of the flood loop -/

theorem getCellD_setRevealed_hasMine (g : Grid) (r c i j : Nat) :
    (getCellD (setRevealed g r c) i j).hasMine = (getCellD g i j).hasMine := by
  rw [getCellD_eq_getCell?, getCellD_eq_getCell?, getCell?_setRevealed]
  by_cases h : r = i ∧ c = j
  · rw [if_pos h]; cases hc : getCell? g i j <;> simp
  · rw [if_neg h]

theorem getCellD_setRevealed_adjacentMines (g : Grid) (r c i j : Nat) :
    (getCellD (setRevealed g r c) i j).adjacentMines = (getCellD g i j).adjacentMines := by
  rw [getCellD_eq_getCell?, getCellD_eq_getCell?, getCell?_setRevealed]
  by_cases h : r = i ∧ c = j
  · rw [if_pos h]; cases hc : getCell? g i j <;> simp
  · rw [if_neg h]

theorem mem_mooreDirs {d : Int × Int} :
    d ∈ mooreDirs ↔ d.1.natAbs ≤ 1 ∧ d.2.natAbs ≤ 1 ∧ d ≠ (0, 0) := by
  constructor
  · intro h
    simp only [mooreDirs, List.mem_cons, List.not_mem_nil, or_false] at h
    rcases h with rfl | rfl | rfl | rfl | rfl | rfl | rfl | rfl <;> refine ⟨?_, ?_, ?_⟩ <;> decide
  · rintro ⟨h1, h2, h3⟩
    obtain ⟨d1, d2⟩ := d
    have hd1 : d1 = -1 ∨ d1 = 0 ∨ d1 = 1 := by omega
    have hd2 : d2 = -1 ∨ d2 = 0 ∨ d2 = 1 := by omega
    rcases hd1 with rfl | rfl | rfl <;> rcases hd2 with rfl | rfl | rfl <;>
      first
        | exact absurd rfl h3
        | decide

/-- An in-bounds mined Moore neighbor belongs to the finset counted by
`specCount`. -/
theorem neighbor_mem_specFilter {g : Grid} {r c : Nat} {d : Int × Int}
    (hd : d ∈ mooreDirs) (hb : inBounds (numRows g) (numCols g) ((r : Int) + d.1) ((c : Int) + d.2))
    (hm : (getCellD g ((r : Int) + d.1).toNat ((c : Int) + d.2).toNat).hasMine = true) :
    ((((r : Int) + d.1).toNat, ((c : Int) + d.2).toNat) : Nat × Nat) ∈
      ((Finset.range (numRows g)) ×ˢ (Finset.range (numCols g))).filter
        (fun p => p ≠ (r, c) ∧ ((p.1 : Int) - r).natAbs ≤ 1 ∧ ((p.2 : Int) - c).natAbs ≤ 1 ∧
          (getCellD g p.1 p.2).hasMine = true) := by
  obtain ⟨hdist1, hdist2, hne⟩ := mem_mooreDirs.mp hd
  obtain ⟨hb1, hb2, hb3, hb4⟩ := hb
  rw [Finset.mem_filter, Finset.mem_product, Finset.mem_range, Finset.mem_range]
  refine ⟨⟨by omega, by omega⟩, ?_, by omega, by omega, hm⟩
  intro heq
  have he1 : ((r : Int) + d.1).toNat = r := congrArg Prod.fst heq
  have he2 : ((c : Int) + d.2).toNat = c := congrArg Prod.snd heq
  apply hne
  obtain ⟨d1, d2⟩ := d
  have hz1 : d1 = 0 := by simp only at he1 hb1; omega
  have hz2 : d2 = 0 := by simp only at he2 hb3; omega
  rw [hz1, hz2]

/-- A non-mined cell whose specification count is zero has no in-bounds
mined Moore neighbor. -/
theorem specCount_zero_no_mined_neighbor {g : Grid} {r c : Nat}
    (hzero : specCount g r c = 0) {d : Int × Int} (hd : d ∈ mooreDirs)
    (hb : inBounds (numRows g) (numCols g) ((r : Int) + d.1) ((c : Int) + d.2)) :
    (getCellD g ((r : Int) + d.1).toNat ((c : Int) + d.2).toNat).hasMine = false := by
  by_contra hmine
  have hm : (getCellD g ((r : Int) + d.1).toNat ((c : Int) + d.2).toNat).hasMine = true := by
    simpa using hmine
  have hmem := neighbor_mem_specFilter hd hb hm
  have := Finset.card_ne_zero_of_mem hmem
  exact this hzero

/-- Invariant run of the flood loop: if every zero-count non-mined cell of
the grid has no in-bounds mined Moore neighbor, and every stack entry is
(when in bounds) non-mined, then every mined cell of the grid is left
completely untouched by the loop. -/
theorem dfsLoop_keeps_mines (rows cols : Nat) :
    ∀ (fuel : Nat) (g : Grid) (v : List (Nat × Nat)) (st : List (Int × Int)),
      (∀ r2 c2 : Nat, r2 < rows → c2 < cols → (getCellD g r2 c2).hasMine = false →
        (getCellD g r2 c2).adjacentMines = 0 →
        ∀ d ∈ mooreDirs, inBounds rows cols ((r2 : Int) + d.1) ((c2 : Int) + d.2) →
          (getCellD g ((r2 : Int) + d.1).toNat ((c2 : Int) + d.2).toNat).hasMine = false) →
      (∀ p ∈ st, inBounds rows cols p.1 p.2 →
        (getCellD g p.1.toNat p.2.toNat).hasMine = false) →
      ∀ i j : Nat, ∀ cell : Cell, getCell? g i j = some cell → cell.hasMine = true →
        getCell? (dfsLoop rows cols fuel g v st) i j = some cell := by
  intro fuel
  induction fuel with
  | zero => intro g v st _ _ i j cell hcell _; exact hcell
  | succ n ih =>
    intro g v st hzero hsafe i j cell hcell hmine
    cases st with
    | nil => exact hcell
    | cons p rest =>
      obtain ⟨r, c⟩ := p
      simp only [dfsLoop]
      by_cases hguard : inBounds rows cols r c ∧ (r.toNat, c.toNat) ∉ v ∧
          (getCellD g r.toNat c.toNat).revealed = false
      · rw [if_pos hguard]
        have hbnd : inBounds rows cols r c := hguard.1
        have hpop : (getCellD g r.toNat c.toNat).hasMine = false :=
          hsafe (r, c) (List.mem_cons_self ..) hbnd
        have hnotij : ¬(r.toNat = i ∧ c.toNat = j) := by
          rintro ⟨rfl, rfl⟩
          rw [getCellD_of_getCell? hcell] at hpop
          rw [hmine] at hpop
          exact absurd hpop (by decide)
        have hcell2 : getCell? (setRevealed g r.toNat c.toNat) i j = some cell := by
          rw [getCell?_setRevealed, if_neg hnotij]
          exact hcell
        have hzero2 : ∀ r2 c2 : Nat, r2 < rows → c2 < cols →
            (getCellD (setRevealed g r.toNat c.toNat) r2 c2).hasMine = false →
            (getCellD (setRevealed g r.toNat c.toNat) r2 c2).adjacentMines = 0 →
            ∀ d ∈ mooreDirs, inBounds rows cols ((r2 : Int) + d.1) ((c2 : Int) + d.2) →
              (getCellD (setRevealed g r.toNat c.toNat)
                ((r2 : Int) + d.1).toNat ((c2 : Int) + d.2).toNat).hasMine = false := by
          intro r2 c2 h1 h2 h3 h4 d hd hb
          rw [getCellD_setRevealed_hasMine] at h3 ⊢
          rw [getCellD_setRevealed_adjacentMines] at h4
          exact hzero r2 c2 h1 h2 h3 h4 d hd hb
        apply ih _ _ _ hzero2 _ i j cell hcell2 hmine
        intro q hq hqb
        rw [getCellD_setRevealed_hasMine]
        rcases (by
          by_cases hcond : (getCellD (setRevealed g r.toNat c.toNat) r.toNat c.toNat).adjacentMines = 0 ∧
              (getCellD (setRevealed g r.toNat c.toNat) r.toNat c.toNat).hasMine = false
          · rw [if_pos hcond] at hq; exact Or.inl ⟨hcond, hq⟩
          · rw [if_neg hcond] at hq; exact Or.inr hq :
            ((getCellD (setRevealed g r.toNat c.toNat) r.toNat c.toNat).adjacentMines = 0 ∧
              (getCellD (setRevealed g r.toNat c.toNat) r.toNat c.toNat).hasMine = false) ∧
              q ∈ ((mooreDirs.map (fun d => (r + d.1, c + d.2))).reverse) ++ rest ∨
              q ∈ rest) with hpush | hrest
        · obtain ⟨⟨hadj0, _⟩, hqmem⟩ := hpush
          rw [List.mem_append, List.mem_reverse] at hqmem
          rcases hqmem with hqnew | hqold
          · obtain ⟨d, hd, rfl⟩ := List.mem_map.mp hqnew
            have hadj0g : (getCellD g r.toNat c.toNat).adjacentMines = 0 := by
              rw [getCellD_setRevealed_adjacentMines] at hadj0
              exact hadj0
            have hcast1 : ((r.toNat : Int) + d.1) = r + d.1 := by omega
            have hcast2 : ((c.toNat : Int) + d.2) = c + d.2 := by omega
            have := hzero r.toNat c.toNat (by omega) (by omega) hpop hadj0g d hd
              (by rw [hcast1, hcast2]; exact hqb)
            rw [hcast1, hcast2] at this
            exact this
          · exact hsafe q (List.mem_cons_of_mem _ hqold) hqb
        · exact hsafe q (List.mem_cons_of_mem _ hrest) hqb
      · rw [if_neg hguard]
        exact ih g v rest hzero (fun q hq => hsafe q (List.mem_cons_of_mem _ hq)) i j cell hcell hmine

/-! ## Adjacency counting agrees with the specification count -/

theorem countNeighborMines_eq_specCount (g : Grid) (r c : Nat) :
    countNeighborMines g r c = specCount g r c := by
  unfold countNeighborMines specCount
  have hnodup : (mooreDirs.filter (fun d =>
      decide (inBounds (numRows g) (numCols g) ((r : Int) + d.1) ((c : Int) + d.2)) &&
      (getCellD g ((r : Int) + d.1).toNat ((c : Int) + d.2).toNat).hasMine)).Nodup :=
    List.Nodup.filter _ (by decide)
  rw [← List.toFinset_card_of_nodup hnodup, List.toFinset_filter]
  apply Finset.card_bij (fun d _ => (((r : Int) + d.1).toNat, ((c : Int) + d.2).toNat))
  · intro d hd
    rw [Finset.mem_filter] at hd
    obtain ⟨hdmem, hdP⟩ := hd
    rw [List.mem_toFinset] at hdmem
    simp only [Bool.and_eq_true, decide_eq_true_eq] at hdP
    exact neighbor_mem_specFilter hdmem hdP.1 hdP.2
  · intro d1 hd1 d2 hd2 heq
    rw [Finset.mem_filter] at hd1 hd2
    simp only [Bool.and_eq_true, decide_eq_true_eq] at hd1 hd2
    obtain ⟨hb11, hb12, hb13, hb14⟩ := hd1.2.1
    obtain ⟨hb21, hb22, hb23, hb24⟩ := hd2.2.1
    have he1 : ((r : Int) + d1.1).toNat = ((r : Int) + d2.1).toNat := congrArg Prod.fst heq
    have he2 : ((c : Int) + d1.2).toNat = ((c : Int) + d2.2).toNat := congrArg Prod.snd heq
    obtain ⟨a1, a2⟩ := d1
    obtain ⟨b1, b2⟩ := d2
    simp only at he1 he2 hb11 hb13 hb21 hb23 ⊢
    have : a1 = b1 := by omega
    have : a2 = b2 := by omega
    simp_all
  · intro q hq
    rw [Finset.mem_filter, Finset.mem_product, Finset.mem_range, Finset.mem_range] at hq
    obtain ⟨⟨hq1, hq2⟩, hqne, hqd1, hqd2, hqm⟩ := hq
    refine ⟨((q.1 : Int) - r, (q.2 : Int) - c), ?_, ?_⟩
    · rw [Finset.mem_filter, List.mem_toFinset]
      have hdm : ((q.1 : Int) - r, (q.2 : Int) - c) ∈ mooreDirs := by
        rw [mem_mooreDirs]
        refine ⟨hqd1, hqd2, ?_⟩
        intro hz
        have hz1 : (q.1 : Int) - r = 0 := congrArg Prod.fst hz
        have hz2 : (q.2 : Int) - c = 0 := congrArg Prod.snd hz
        apply hqne
        have e1 : q.1 = r := by omega
        have e2 : q.2 = c := by omega
        obtain ⟨x1, x2⟩ := q
        simp only at e1 e2
        simp [e1, e2]
      refine ⟨hdm, ?_⟩
      simp only [Bool.and_eq_true, decide_eq_true_eq]
      have e1 : ((r : Int) + ((q.1 : Int) - r)).toNat = q.1 := by omega
      have e2 : ((c : Int) + ((q.2 : Int) - c)).toNat = q.2 := by omega
      constructor
      · refine ⟨by omega, by omega, by omega, by omega⟩
      · rw [e1, e2]
        exact hqm
    · have e1 : ((r : Int) + ((q.1 : Int) - r)).toNat = q.1 := by omega
      have e2 : ((c : Int) + ((q.2 : Int) - c)).toNat = q.2 := by omega
      obtain ⟨x1, x2⟩ := q
      simp only at e1 e2
      simp [e1, e2]

theorem getCell?_countAdjacentMinesTS (g : Grid) (r c : Nat) :
    getCell? (Multisweeper.countAdjacentMines g) r c =
      (getCell? g r c).map (fun cell =>
        if cell.hasMine then { cell with adjacentMines := -1 }
        else { cell with adjacentMines := (countNeighborMines g r c : Int) }) := by
  unfold getCell? Multisweeper.countAdjacentMines
  rw [List.getElem?_mapIdx]
  cases hr : g[r]? with
  | none => simp
  | some row => simp [List.getElem?_mapIdx]

theorem getCell?_countAdjacentMinesJS (g : Grid) (r c : Nat) :
    getCell? (GameLogic.countAdjacentMines g) r c =
      (getCell? g r c).map (fun cell =>
        if cell.hasMine then cell
        else { cell with adjacentMines := (countNeighborMines g r c : Int) }) := by
  unfold getCell? GameLogic.countAdjacentMines
  rw [List.getElem?_mapIdx]
  cases hr : g[r]? with
  | none => simp
  | some row => simp [List.getElem?_mapIdx]

theorem numRows_countAdjacentMinesTS (g : Grid) :
    numRows (Multisweeper.countAdjacentMines g) = numRows g := by
  simp [numRows, Multisweeper.countAdjacentMines, List.length_mapIdx]

theorem numRows_countAdjacentMinesJS (g : Grid) :
    numRows (GameLogic.countAdjacentMines g) = numRows g := by
  simp [numRows, GameLogic.countAdjacentMines, List.length_mapIdx]

theorem numCols_countAdjacentMinesTS (g : Grid) :
    numCols (Multisweeper.countAdjacentMines g) = numCols g := by
  unfold numCols Multisweeper.countAdjacentMines
  cases g with
  | nil => rfl
  | cons row rows => simp [List.mapIdx_cons, List.length_mapIdx]

theorem numCols_countAdjacentMinesJS (g : Grid) :
    numCols (GameLogic.countAdjacentMines g) = numCols g := by
  unfold numCols GameLogic.countAdjacentMines
  cases g with
  | nil => rfl
  | cons row rows => simp [List.mapIdx_cons, List.length_mapIdx]

theorem getCellD_countAdjacentMinesTS_hasMine (g : Grid) (i j : Nat) :
    (getCellD (Multisweeper.countAdjacentMines g) i j).hasMine = (getCellD g i j).hasMine := by
  rw [getCellD_eq_getCell?, getCellD_eq_getCell?, getCell?_countAdjacentMinesTS]
  cases h : getCell? g i j with
  | none => simp
  | some cell =>
    simp only [Option.map_some', Option.getD_some]
    by_cases hm : cell.hasMine <;> simp [hm]

theorem getCellD_countAdjacentMinesJS_hasMine (g : Grid) (i j : Nat) :
    (getCellD (GameLogic.countAdjacentMines g) i j).hasMine = (getCellD g i j).hasMine := by
  rw [getCellD_eq_getCell?, getCellD_eq_getCell?, getCell?_countAdjacentMinesJS]
  cases h : getCell? g i j with
  | none => simp
  | some cell =>
    simp only [Option.map_some', Option.getD_some]
    by_cases hm : cell.hasMine <;> simp [hm]

/-- `specCount` only depends on the dimensions and the mine layout. -/
theorem specCount_congr {g1 g2 : Grid} (hrows : numRows g1 = numRows g2)
    (hcols : numCols g1 = numCols g2)
    (hmine : ∀ i j : Nat, (getCellD g1 i j).hasMine = (getCellD g2 i j).hasMine)
    (r c : Nat) : specCount g1 r c = specCount g2 r c := by
  unfold specCount
  rw [hrows, hcols]
  congr 1
  apply Finset.filter_congr
  intro p _
  rw [hmine p.1 p.2]

/-! ## Win detection -/

theorem checkWin_eq_true_iff {g : Grid} (hrect : isRect g) :
    checkWin g = true ↔
      ∀ (r c : Nat) (cell : Cell), getCell? g r c = some cell →
        cell.hasMine = false → cell.revealed = true := by
  unfold checkWin
  rw [List.all_eq_true]
  constructor
  · intro h r c cell hcell hmine
    obtain ⟨hr, hc⟩ := getCell?_bounds hrect hcell
    have h1 := h r (List.mem_range.mpr hr)
    rw [List.all_eq_true] at h1
    have h2 := h1 c (List.mem_range.mpr hc)
    rw [getCellD_of_getCell? hcell] at h2
    simp [hmine] at h2
    exact h2
  · intro h r hr
    rw [List.all_eq_true]
    intro c hc
    rw [List.mem_range] at hr hc
    have hcell := getCell?_eq_some_of_rect hrect hr hc
    by_cases hm : (getCellD g r c).hasMine = false
    · have hrev := h r c _ hcell hm
      simp [hrev]
    · have : (getCellD g r c).hasMine = true := by
        cases hmv : (getCellD g r c).hasMine
        · exact absurd hmv hm
        · rfl
      simp [this]

/-! ## The reveal endpoint -/

theorem deepCopyGrid_eq (g : Grid) : deepCopyGrid g = g := by
  unfold deepCopyGrid
  have h1 : (fun cell : Cell =>
      ({ hasMine := cell.hasMine, adjacentMines := cell.adjacentMines,
         revealed := cell.revealed, flagged := cell.flagged } : Cell)) = id :=
    funext fun c => rfl
  rw [h1]
  have h2 : (fun row : List Cell => row.map id) = id :=
    funext fun row => by simp
  rw [h2, List.map_id]
/-! ## Shuffle-based mine placement (backend variant) -/

theorem mem_positions {rows cols sr sc : Nat} {p : Nat × Nat} :
    p ∈ GameLogic.positions rows cols sr sc ↔
      p.1 < rows ∧ p.2 < cols ∧ ¬(p.1 = sr ∧ p.2 = sc) := by
  unfold GameLogic.positions
  simp only [List.mem_filter, List.mem_flatMap, List.mem_map, List.mem_range,
    decide_eq_true_eq]
  constructor
  · rintro ⟨⟨r, hr, c, hc, rfl⟩, hpred⟩
    exact ⟨hr, hc, hpred⟩
  · rintro ⟨h1, h2, h3⟩
    refine ⟨⟨p.1, h1, p.2, h2, ?_⟩, h3⟩
    obtain ⟨a, b⟩ := p
    rfl

theorem nodup_positions (rows cols sr sc : Nat) :
    (GameLogic.positions rows cols sr sc).Nodup := by
  apply List.Nodup.filter
  rw [List.nodup_flatMap]
  constructor
  · intro r _
    exact List.Nodup.map (fun a b h => by simpa using h) (List.nodup_range cols)
  · apply List.Pairwise.imp ?_ (List.pairwise_lt_range rows)
    intro a b hab
    intro x hxa hxb
    obtain ⟨c1, _, rfl⟩ := List.mem_map.mp hxa
    obtain ⟨c2, _, heq⟩ := List.mem_map.mp hxb
    have : a = b := by simpa using congrArg Prod.fst heq.symm
    omega

theorem cons_set_perm {α : Type} :
    ∀ (t : List α) (m : Nat) (hm : m < t.length) (a : α),
      List.Perm (t[m] :: t.set m a) (a :: t) := by
  intro t
  induction t with
  | nil => intro m hm a; simp at hm
  | cons b t2 ih =>
    intro m hm a
    cases m with
    | zero => simpa using List.Perm.swap a b t2
    | succ k =>
      have hk : k < t2.length := by simpa using hm
      simp only [List.getElem_cons_succ, List.set_cons_succ]
      exact (List.Perm.swap b (t2[k]) (t2.set k a)).trans
        (((ih k hk a).cons b).trans (List.Perm.swap a b t2))

theorem set_set_perm {α : Type} :
    ∀ (l : List α) (i j : Nat) (hi : i < l.length) (hj : j < l.length),
      List.Perm ((l.set i l[j]).set j l[i]) l := by
  intro l
  induction l with
  | nil => intro i j hi _; simp at hi
  | cons a t ih =>
    intro i j hi hj
    cases i with
    | zero =>
      cases j with
      | zero => simp
      | succ k =>
        have hk : k < t.length := by simpa using hj
        simpa using cons_set_perm t k hk a
    | succ m =>
      have hm : m < t.length := by simpa using hi
      cases j with
      | zero => simpa using cons_set_perm t m hm a
      | succ k =>
        have hk : k < t.length := by simpa using hj
        simpa using (ih m k hm hk).cons a

theorem length_swapAt (l : List (Nat × Nat)) (i j : Nat) :
    (GameLogic.swapAt l i j).length = l.length := by
  simp [GameLogic.swapAt]

theorem swapAt_perm (l : List (Nat × Nat)) (i j : Nat) (hi : i < l.length)
    (hj : j < l.length) : List.Perm (GameLogic.swapAt l i j) l := by
  unfold GameLogic.swapAt
  rw [List.getD_eq_getElem l default hj, List.getD_eq_getElem l default hi]
  exact set_set_perm l i j hi hj

theorem fyLoop_perm (rand : Nat → Nat) (hrand : ∀ n, rand n ≤ n) :
    ∀ (i : Nat) (l : List (Nat × Nat)), i < l.length →
      List.Perm (GameLogic.fyLoop rand i l) l := by
  intro i
  induction i with
  | zero => intro l _; exact List.Perm.refl l
  | succ n ih =>
    intro l hl
    have hswap : List.Perm (GameLogic.swapAt l (n + 1) (rand (n + 1))) l :=
      swapAt_perm l (n + 1) (rand (n + 1)) hl (by have := hrand (n + 1); omega)
    have hlen : n < (GameLogic.swapAt l (n + 1) (rand (n + 1))).length := by
      rw [length_swapAt]; omega
    exact (ih _ hlen).trans hswap

theorem shuffle_perm (l : List (Nat × Nat)) (rand : Nat → Nat)
    (hrand : ∀ n, rand n ≤ n) : List.Perm (GameLogic.shuffle l rand) l := by
  unfold GameLogic.shuffle
  cases l with
  | nil => exact List.Perm.refl _
  | cons a t =>
    apply fyLoop_perm rand hrand
    simp

theorem numRows_setMinesList : ∀ (l : List (Nat × Nat)) (g : Grid),
    numRows (GameLogic.setMinesList g l) = numRows g := by
  intro l
  induction l with
  | nil => intro g; rfl
  | cons p t ih =>
    intro g
    have h0 : GameLogic.setMinesList g (p :: t) = GameLogic.setMinesList (setMine g p.1 p.2) t := rfl
    rw [h0, ih, numRows_setMine]

theorem numCols_setMinesList : ∀ (l : List (Nat × Nat)) (g : Grid),
    numCols (GameLogic.setMinesList g l) = numCols g := by
  intro l
  induction l with
  | nil => intro g; rfl
  | cons p t ih =>
    intro g
    have h0 : GameLogic.setMinesList g (p :: t) = GameLogic.setMinesList (setMine g p.1 p.2) t := rfl
    rw [h0, ih, numCols_setMine]

theorem isRect_setMinesList : ∀ (l : List (Nat × Nat)) {g : Grid}, isRect g →
    isRect (GameLogic.setMinesList g l) := by
  intro l
  induction l with
  | nil => intro g h; exact h
  | cons p t ih =>
    intro g h
    have h0 : GameLogic.setMinesList g (p :: t) = GameLogic.setMinesList (setMine g p.1 p.2) t := rfl
    rw [h0]
    exact ih (isRect_modifyCell h p.1 p.2 _)

theorem getCell?_setMinesList : ∀ (l : List (Nat × Nat)) (g : Grid) (i j : Nat),
    getCell? (GameLogic.setMinesList g l) i j =
      (getCell? g i j).map
        (fun cell => if (i, j) ∈ l then { cell with hasMine := true } else cell) := by
  intro l
  induction l with
  | nil =>
    intro g i j
    cases h : getCell? g i j <;> simp [GameLogic.setMinesList, h]
  | cons p t ih =>
    intro g i j
    have h0 : GameLogic.setMinesList g (p :: t) = GameLogic.setMinesList (setMine g p.1 p.2) t := rfl
    rw [h0, ih, getCell?_setMine]
    by_cases hp : p.1 = i ∧ p.2 = j
    · have hpe : p = (i, j) := by
        obtain ⟨a, b⟩ := p
        simp only at hp
        simp [hp.1, hp.2]
      rw [if_pos hp]
      cases h : getCell? g i j with
      | none => simp
      | some cell =>
        simp only [Option.map_some', Option.map_some]
        have hmem : (i, j) ∈ p :: t := by rw [hpe]; exact List.mem_cons_self ..
        rw [if_pos hmem]
        by_cases ht : (i, j) ∈ t <;> simp [ht]
    · have hpe : ¬((i, j) = p) := by
        intro he
        exact hp ⟨by rw [← he], by rw [← he]⟩
      rw [if_neg hp]
      cases h : getCell? g i j with
      | none => simp
      | some cell =>
        simp only [Option.map_some', Option.map_some]
        have hcond : ((i, j) ∈ p :: t) = ((i, j) ∈ t) := by
          simp [List.mem_cons, hpe]
        simp only [hcond]

theorem minedCells_setMinesList_empty {rows cols : Nat} (h0 : 0 < rows)
    (l : List (Nat × Nat)) (hl : ∀ p ∈ l, p.1 < rows ∧ p.2 < cols) :
    minedCells (GameLogic.setMinesList (createEmptyGrid rows cols) l) = l.toFinset := by
  unfold minedCells
  rw [numRows_setMinesList, numCols_setMinesList, numRows_createEmptyGrid,
    numCols_createEmptyGrid cols h0]
  ext p
  obtain ⟨i, j⟩ := p
  rw [Finset.mem_filter, Finset.mem_product, Finset.mem_range, Finset.mem_range,
    List.mem_toFinset]
  rw [getCellD_eq_getCell?, getCell?_setMinesList, getCell?_createEmptyGrid]
  by_cases hb : i < rows ∧ j < cols
  · rw [if_pos hb]
    simp only [Option.map_some', Option.getD_some]
    constructor
    · rintro ⟨⟨h1, h2⟩, h3⟩
      by_cases hmem : (i, j) ∈ l
      · exact hmem
      · rw [if_neg hmem] at h3
        simp at h3
    · intro hmem
      refine ⟨⟨hb.1, hb.2⟩, ?_⟩
      rw [if_pos hmem]
  · rw [if_neg hb]
    simp only [Option.map_none', Option.getD_none]
    constructor
    · rintro ⟨⟨h1, h2⟩, _⟩
      exact absurd ⟨h1, h2⟩ hb
    · intro hmem
      exact absurd (hl _ hmem) hb

theorem positions_toFinset (rows cols sr sc : Nat) :
    (GameLogic.positions rows cols sr sc).toFinset = eligibleSingle rows cols sr sc := by
  ext p
  rw [List.mem_toFinset, mem_positions]
  unfold eligibleSingle
  rw [Finset.mem_filter, Finset.mem_product, Finset.mem_range, Finset.mem_range]
  constructor
  · rintro ⟨h1, h2, h3⟩
    refine ⟨⟨h1, h2⟩, ?_⟩
    intro he
    exact h3 ⟨by rw [he], by rw [he]⟩
  · rintro ⟨⟨h1, h2⟩, h3⟩
    refine ⟨h1, h2, ?_⟩
    intro hand
    apply h3
    obtain ⟨a, b⟩ := p
    simp only at hand
    simp [hand.1, hand.2]

theorem card_eligibleSingle (rows cols sr sc : Nat) :
    (eligibleSingle rows cols sr sc).card = (GameLogic.positions rows cols sr sc).length := by
  rw [← positions_toFinset]
  exact List.toFinset_card_of_nodup (nodup_positions ..)

theorem nodup_shuffle (rows cols sr sc : Nat) (rand : Nat → Nat) (hrand : ∀ n, rand n ≤ n) :
    (GameLogic.shuffle (GameLogic.positions rows cols sr sc) rand).Nodup :=
  (shuffle_perm _ rand hrand).nodup_iff.mpr (nodup_positions ..)

theorem placeMinesJS_minedCells (rows cols sr sc mineCount : Nat) (rand : Nat → Nat)
    (hrand : ∀ n, rand n ≤ n) (h0 : 0 < rows) :
    minedCells (GameLogic.placeMines (createEmptyGrid rows cols) mineCount sr sc rand) =
      ((GameLogic.shuffle (GameLogic.positions rows cols sr sc) rand).take mineCount).toFinset := by
  unfold GameLogic.placeMines
  rw [numRows_createEmptyGrid, numCols_createEmptyGrid cols h0]
  apply minedCells_setMinesList_empty h0
  intro p hp
  have hmem : p ∈ GameLogic.positions rows cols sr sc :=
    (shuffle_perm _ rand hrand).mem_iff.mp (List.mem_of_mem_take hp)
  have hmem2 := mem_positions.mp hmem
  exact ⟨hmem2.1, hmem2.2.1⟩

/-! ## Rejection-sampling mine placement (client variant) -/

theorem mem_dirs9 {d : Int × Int} :
    d ∈ dirs9 ↔ d.1.natAbs ≤ 1 ∧ d.2.natAbs ≤ 1 := by
  constructor
  · intro h
    simp only [dirs9, List.mem_cons, List.not_mem_nil, or_false] at h
    rcases h with rfl | rfl | rfl | rfl | rfl | rfl | rfl | rfl | rfl <;> exact ⟨by decide, by decide⟩
  · rintro ⟨h1, h2⟩
    obtain ⟨d1, d2⟩ := d
    have hd1 : d1 = -1 ∨ d1 = 0 ∨ d1 = 1 := by omega
    have hd2 : d2 = -1 ∨ d2 = 0 ∨ d2 = 1 := by omega
    rcases hd1 with rfl | rfl | rfl <;> rcases hd2 with rfl | rfl | rfl <;> decide

theorem mem_forbiddenList {rows cols : Nat} {er ec x y : Int} :
    (x, y) ∈ Multisweeper.forbiddenList rows cols er ec ↔
      inBounds rows cols x y ∧ (x - er).natAbs ≤ 1 ∧ (y - ec).natAbs ≤ 1 := by
  unfold Multisweeper.forbiddenList
  rw [List.mem_filterMap]
  constructor
  · rintro ⟨d, hd, hval⟩
    obtain ⟨hd1, hd2⟩ := mem_dirs9.mp hd
    by_cases hb : inBounds rows cols (er + d.1) (ec + d.2)
    · rw [if_pos hb] at hval
      have heq := Option.some_inj.mp hval
      have e1 : er + d.1 = x := congrArg Prod.fst heq
      have e2 : ec + d.2 = y := congrArg Prod.snd heq
      refine ⟨?_, ?_, ?_⟩
      · rw [← e1, ← e2]; exact hb
      · omega
      · omega
    · rw [if_neg hb] at hval
      exact Option.noConfusion hval
  · rintro ⟨hb, h1, h2⟩
    refine ⟨(x - er, y - ec), mem_dirs9.mpr ⟨by omega, by omega⟩, ?_⟩
    have e1 : er + (x - er) = x := by ring
    have e2 : ec + (y - ec) = y := by ring
    simp only [e1, e2]
    rw [if_pos hb]

theorem minedCells_setMine {g : Grid} (hrect : isRect g) {r c : Nat}
    (hr : r < numRows g) (hc : c < numCols g) :
    minedCells (setMine g r c) = insert (r, c) (minedCells g) := by
  unfold minedCells
  rw [numRows_setMine, numCols_setMine]
  ext p
  obtain ⟨i, j⟩ := p
  simp only [Finset.mem_insert, Finset.mem_filter, Finset.mem_product, Finset.mem_range]
  rw [getCellD_eq_getCell?, getCellD_eq_getCell?, getCell?_setMine]
  by_cases hp : r = i ∧ c = j
  · obtain ⟨rfl, rfl⟩ := hp
    rw [if_pos ⟨rfl, rfl⟩]
    have hcell := getCell?_eq_some_of_rect hrect hr hc
    rw [hcell]
    simp only [Option.map_some', Option.getD_some]
    constructor
    · intro _
      left
      trivial
    · intro _
      exact ⟨⟨hr, hc⟩, trivial⟩
  · rw [if_neg hp]
    constructor
    · rintro ⟨hb, hm⟩
      right
      exact ⟨hb, hm⟩
    · rintro (heq | ⟨hb, hm⟩)
      · exfalso
        apply hp
        exact ⟨(congrArg Prod.fst heq).symm, (congrArg Prod.snd heq).symm⟩
      · exact ⟨hb, hm⟩

theorem notMem_minedCells {g : Grid} {r c : Nat}
    (hm : (getCellD g r c).hasMine = false) : (r, c) ∉ minedCells g := by
  unfold minedCells
  rw [Finset.mem_filter]
  rintro ⟨_, hmm⟩
  rw [hm] at hmm
  exact Bool.noConfusion hmm

theorem placeLoop_some_spec (rows cols : Nat) (forb : List (Int × Int)) (mineCount : Nat) :
    ∀ (draws : List (Nat × Nat)) (g : Grid) (placed : Nat) (g2 : Grid),
      isRect g → numRows g = rows → numCols g = cols →
      (∀ p ∈ draws, p.1 < rows ∧ p.2 < cols) →
      (minedCells g).card = placed → placed ≤ mineCount →
      (∀ p ∈ minedCells g, ((p.1 : Int), (p.2 : Int)) ∉ forb) →
      Multisweeper.placeLoop rows cols forb mineCount g placed draws = some g2 →
      (minedCells g2).card = mineCount ∧
        (∀ p ∈ minedCells g2, ((p.1 : Int), (p.2 : Int)) ∉ forb) ∧
        isRect g2 ∧ numRows g2 = rows ∧ numCols g2 = cols := by
  intro draws
  induction draws with
  | nil =>
    intro g placed g2 hrect hR hC _ hcard hle hforb hrun
    unfold Multisweeper.placeLoop at hrun
    by_cases hguard : mineCount ≤ placed
    · rw [if_pos hguard] at hrun
      cases Option.some_inj.mp hrun
      have heq : placed = mineCount := le_antisymm hle hguard
      exact ⟨by rw [hcard, heq], hforb, hrect, hR, hC⟩
    · rw [if_neg hguard] at hrun
      exact Option.noConfusion hrun
  | cons d rest ih =>
    intro g placed g2 hrect hR hC hdr hcard hle hforb hrun
    obtain ⟨r, c⟩ := d
    unfold Multisweeper.placeLoop at hrun
    by_cases hguard : mineCount ≤ placed
    · rw [if_pos hguard] at hrun
      cases Option.some_inj.mp hrun
      have heq : placed = mineCount := le_antisymm hle hguard
      exact ⟨by rw [hcard, heq], hforb, hrect, hR, hC⟩
    · rw [if_neg hguard] at hrun
      replace hrun : (if ((r : Int), (c : Int)) ∉ forb ∧ (getCellD g r c).hasMine = false then
          Multisweeper.placeLoop rows cols forb mineCount (setMine g r c) (placed + 1) rest
        else Multisweeper.placeLoop rows cols forb mineCount g placed rest) = some g2 := hrun
      by_cases hacc : ((r : Int), (c : Int)) ∉ forb ∧ (getCellD g r c).hasMine = false
      · rw [if_pos hacc] at hrun
        have hrb : r < rows := (hdr (r, c) (List.mem_cons_self ..)).1
        have hcb : c < cols := (hdr (r, c) (List.mem_cons_self ..)).2
        have hnew : minedCells (setMine g r c) = insert (r, c) (minedCells g) :=
          minedCells_setMine hrect (by omega) (by omega)
        have hnot : (r, c) ∉ minedCells g := notMem_minedCells hacc.2
        refine ih (setMine g r c) (placed + 1) g2 (isRect_modifyCell hrect r c _)
          (by rw [numRows_setMine, hR]) (by rw [numCols_setMine, hC])
          (fun p hp => hdr p (List.mem_cons_of_mem _ hp))
          (by rw [hnew, Finset.card_insert_of_not_mem hnot, hcard]) (by omega)
          ?_ hrun
        intro p hp
        rw [hnew, Finset.mem_insert] at hp
        rcases hp with rfl | hp
        · exact hacc.1
        · exact hforb p hp
      · rw [if_neg hacc] at hrun
        exact ih g placed g2 hrect hR hC (fun p hp => hdr p (List.mem_cons_of_mem _ hp))
          hcard hle hforb hrun

theorem placeLoop_eq_none (rows cols : Nat) (forb : List (Int × Int)) (mineCount : Nat)
    (hover : (((Finset.range rows) ×ˢ (Finset.range cols)).filter
      (fun p => ((p.1 : Int), (p.2 : Int)) ∉ forb)).card < mineCount) :
    ∀ (draws : List (Nat × Nat)) (g : Grid) (placed : Nat),
      isRect g → numRows g = rows → numCols g = cols →
      (∀ p ∈ draws, p.1 < rows ∧ p.2 < cols) →
      (minedCells g).card = placed →
      (∀ p ∈ minedCells g, ((p.1 : Int), (p.2 : Int)) ∉ forb) →
      Multisweeper.placeLoop rows cols forb mineCount g placed draws = none := by
  have hbound : ∀ (g : Grid), numRows g = rows → numCols g = cols →
      (∀ p ∈ minedCells g, ((p.1 : Int), (p.2 : Int)) ∉ forb) →
      (minedCells g).card < mineCount := by
    intro g hR hC hforb
    have hsub : minedCells g ⊆ ((Finset.range rows) ×ˢ (Finset.range cols)).filter
        (fun p => ((p.1 : Int), (p.2 : Int)) ∉ forb) := by
      intro p hp
      unfold minedCells at hp
      rw [Finset.mem_filter] at hp ⊢
      rw [hR, hC] at hp
      exact ⟨hp.1, hforb p (by unfold minedCells; rw [Finset.mem_filter, hR, hC]; exact hp)⟩
    exact lt_of_le_of_lt (Finset.card_le_card hsub) hover
  intro draws
  induction draws with
  | nil =>
    intro g placed hrect hR hC _ hcard hforb
    unfold Multisweeper.placeLoop
    rw [if_neg (by have := hbound g hR hC hforb; omega)]
  | cons d rest ih =>
    intro g placed hrect hR hC hdr hcard hforb
    obtain ⟨r, c⟩ := d
    unfold Multisweeper.placeLoop
    rw [if_neg (by have := hbound g hR hC hforb; omega)]
    show (if ((r : Int), (c : Int)) ∉ forb ∧ (getCellD g r c).hasMine = false then
        Multisweeper.placeLoop rows cols forb mineCount (setMine g r c) (placed + 1) rest
      else Multisweeper.placeLoop rows cols forb mineCount g placed rest) = none
    by_cases hacc : ((r : Int), (c : Int)) ∉ forb ∧ (getCellD g r c).hasMine = false
    · rw [if_pos hacc]
      have hrb : r < rows := (hdr (r, c) (List.mem_cons_self ..)).1
      have hcb : c < cols := (hdr (r, c) (List.mem_cons_self ..)).2
      have hnew : minedCells (setMine g r c) = insert (r, c) (minedCells g) :=
        minedCells_setMine hrect (by omega) (by omega)
      have hnot : (r, c) ∉ minedCells g := notMem_minedCells hacc.2
      refine ih (setMine g r c) (placed + 1) (isRect_modifyCell hrect r c _)
        (by rw [numRows_setMine, hR]) (by rw [numCols_setMine, hC])
        (fun p hp => hdr p (List.mem_cons_of_mem _ hp))
        (by rw [hnew, Finset.card_insert_of_not_mem hnot, hcard]) ?_
      intro p hp
      rw [hnew, Finset.mem_insert] at hp
      rcases hp with rfl | hp
      · exact hacc.1
      · exact hforb p hp
    · rw [if_neg hacc]
      exact ih g placed hrect hR hC (fun p hp => hdr p (List.mem_cons_of_mem _ hp)) hcard hforb

theorem minedCells_createEmptyGrid (rows cols : Nat) :
    minedCells (createEmptyGrid rows cols) = ∅ := by
  unfold minedCells
  rw [Finset.eq_empty_iff_forall_not_mem]
  intro p
  rw [Finset.mem_filter]
  rintro ⟨hb, hm⟩
  rw [Finset.mem_product, Finset.mem_range, Finset.mem_range] at hb
  rw [getCellD_eq_getCell?, getCell?_createEmptyGrid, if_pos ⟨by
    rw [numRows_createEmptyGrid] at hb; exact hb.1, by
    have h0 : 0 < rows := by rw [numRows_createEmptyGrid] at hb; omega
    rw [numCols_createEmptyGrid cols h0] at hb
    exact hb.2⟩] at hm
  simp at hm

theorem filter_forb_eq_eligibleNbhd (rows cols : Nat) (er ec : Int) :
    ((Finset.range rows) ×ˢ (Finset.range cols)).filter
      (fun p => ((p.1 : Int), (p.2 : Int)) ∉ Multisweeper.forbiddenList rows cols er ec) =
    eligibleNbhd rows cols er ec := by
  unfold eligibleNbhd
  apply Finset.filter_congr
  intro p hp
  rw [Finset.mem_product, Finset.mem_range, Finset.mem_range] at hp
  rw [mem_forbiddenList]
  constructor
  · intro h hcond
    exact h ⟨⟨by omega, by omega, by omega, by omega⟩, hcond.1, hcond.2⟩
  · intro h hcond
    exact h ⟨hcond.2.1, hcond.2.2⟩

/-! ## Claim theorems -/

/-- C1: for every (rectangular) grid, after `countAdjacentMines` runs, every
non-mined cell's `adjacentMines` field equals the exact number of cells in
its Moore neighborhood (up to 8 neighbors, clipped at the grid boundary)
whose `hasMine` field is true.  Both variants are covered: the
`multisweeper.ts` one (which writes -1 into mined cells) and the
`gameLogic.js` one (which skips mined cells). -/
theorem countAdjacentMines_correct :
    (∀ (g : Grid), isRect g → ∀ (r c : Nat) (cell : Cell),
      getCell? (Multisweeper.countAdjacentMines g) r c = some cell → cell.hasMine = false →
        cell.adjacentMines = (specCount (Multisweeper.countAdjacentMines g) r c : Int)) ∧
    (∀ (g : Grid), isRect g → ∀ (r c : Nat) (cell : Cell),
      getCell? (GameLogic.countAdjacentMines g) r c = some cell → cell.hasMine = false →
        cell.adjacentMines = (specCount (GameLogic.countAdjacentMines g) r c : Int)) := by
  constructor
  · intro g _ r c cell hcell hmine
    rw [getCell?_countAdjacentMinesTS] at hcell
    cases horig : getCell? g r c with
    | none => rw [horig] at hcell; simp at hcell
    | some cell0 =>
      rw [horig, Option.map_some'] at hcell
      have hcdef := Option.some_inj.mp hcell
      by_cases hm0 : cell0.hasMine
      · rw [if_pos hm0] at hcdef
        rw [← hcdef] at hmine
        simp only at hmine
        rw [hm0] at hmine
        exact absurd hmine (by decide)
      · rw [if_neg hm0] at hcdef
        rw [← hcdef]
        show (countNeighborMines g r c : Int) = _
        rw [countNeighborMines_eq_specCount]
        congr 1
        exact specCount_congr (numRows_countAdjacentMinesTS g).symm
          (numCols_countAdjacentMinesTS g).symm
          (fun i j => (getCellD_countAdjacentMinesTS_hasMine g i j).symm) r c
  · intro g _ r c cell hcell hmine
    rw [getCell?_countAdjacentMinesJS] at hcell
    cases horig : getCell? g r c with
    | none => rw [horig] at hcell; simp at hcell
    | some cell0 =>
      rw [horig, Option.map_some'] at hcell
      have hcdef := Option.some_inj.mp hcell
      by_cases hm0 : cell0.hasMine
      · rw [if_pos hm0] at hcdef
        rw [← hcdef] at hmine
        rw [hm0] at hmine
        exact absurd hmine (by decide)
      · rw [if_neg hm0] at hcdef
        rw [← hcdef]
        show (countNeighborMines g r c : Int) = _
        rw [countNeighborMines_eq_specCount]
        congr 1
        exact specCount_congr (numRows_countAdjacentMinesJS g).symm
          (numCols_countAdjacentMinesJS g).symm
          (fun i j => (getCellD_countAdjacentMinesJS_hasMine g i j).symm) r c

/-- C1 witness: on the 3x3 corner-mine grid, the cell `(1,1)` of both
variants' outputs carries count 1, the specification count of its
neighborhood. -/
theorem countAdjacentMines_correct_witness :
    (⟨false, 1, false, false⟩ : Cell).adjacentMines =
      (specCount (Multisweeper.countAdjacentMines cornerMineGrid) 1 1 : Int) ∧
    (⟨false, 1, false, false⟩ : Cell).adjacentMines =
      (specCount (GameLogic.countAdjacentMines cornerMineGrid) 1 1 : Int) :=
  ⟨countAdjacentMines_correct.1 cornerMineGrid (by decide) 1 1 ⟨false, 1, false, false⟩
      (by decide) (by decide),
    countAdjacentMines_correct.2 cornerMineGrid (by decide) 1 1 ⟨false, 1, false, false⟩
      (by decide) (by decide)⟩

/-- C2: on a (rectangular) grid whose adjacency counts are correct,
`revealCellsDFS` seeded on a non-mined cell with `adjacentMines = 0` never
sets `revealed = true` on any mined cell (mined cells are returned exactly
as they were); and expansion stops at every cell with `adjacentMines > 0`:
such a cell is revealed but none of its neighbors is pushed, the loop
continues on the remaining stack alone. -/
theorem revealCellsDFS_mine_safety :
    (∀ (g : Grid), isRect g → countsCorrect g →
      ∀ (row col : Int) (seed : Cell), lookupCell g row col = some seed →
        seed.hasMine = false → seed.adjacentMines = 0 →
        ∀ (i j : Nat) (cell : Cell), getCell? g i j = some cell → cell.hasMine = true →
          getCell? (revealCellsDFS g row col) i j = some cell) ∧
    (∀ (rows cols fuel : Nat) (g : Grid) (v : List (Nat × Nat)) (r c : Int)
        (rest : List (Int × Int)),
      inBounds rows cols r c → (r.toNat, c.toNat) ∉ v →
      (getCellD g r.toNat c.toNat).revealed = false →
      0 < (getCellD g r.toNat c.toNat).adjacentMines →
      dfsLoop rows cols (fuel + 1) g v ((r, c) :: rest) =
        dfsLoop rows cols fuel (setRevealed g r.toNat c.toNat) ((r.toNat, c.toNat) :: v) rest) := by
  constructor
  · intro g hrect hcounts row col seed hseed hseedmine _ i j cell hcell hmine
    apply dfsLoop_keeps_mines (numRows g) (numCols g) _ g [] [(row, col)] ?_ ?_ i j cell hcell hmine
    · intro r2 c2 h1 h2 h3 h4 d hd hb
      have hcc := hcounts r2 h1 c2 h2 h3
      have hspec0 : specCount g r2 c2 = 0 := by
        have hz : (specCount g r2 c2 : Int) = 0 := by rw [← hcc]; exact h4
        exact_mod_cast hz
      exact specCount_zero_no_mined_neighbor hspec0 hd hb
    · intro p hp hb
      have hpe : p = (row, col) := by simpa using hp
      subst hpe
      unfold lookupCell at hseed
      rw [if_pos ⟨hb.1, hb.2.2.1⟩] at hseed
      rw [getCellD_of_getCell? hseed]
      exact hseedmine
  · intro rows cols fuel g v r c rest hb hv hrev hpos
    simp only [dfsLoop]
    rw [if_pos ⟨hb, hv, hrev⟩]
    rw [if_neg ?_]
    rintro ⟨hadj, _⟩
    rw [getCellD_setRevealed_adjacentMines] at hadj
    omega

/-- C2 witness: flooding the counted corner-mine grid from `(0,0)` leaves
the mined corner untouched, and a concrete one-cell positive-count grid
shows the no-push step. -/
theorem revealCellsDFS_mine_safety_witness :
    getCell? (revealCellsDFS cornerMineCounted 0 0) 2 2 = some ⟨true, -1, false, false⟩ ∧
    dfsLoop 1 1 1 [[⟨false, 1, false, false⟩]] [] [(0, 0)] =
      dfsLoop 1 1 0 (setRevealed [[⟨false, 1, false, false⟩]] 0 0) [(0, 0)] [] :=
  ⟨revealCellsDFS_mine_safety.1 cornerMineCounted (by decide) (by decide) 0 0
      ⟨false, 0, false, false⟩ (by decide) (by decide) (by decide) 2 2
      ⟨true, -1, false, false⟩ (by decide) (by decide),
    revealCellsDFS_mine_safety.2 1 1 0 [[⟨false, 1, false, false⟩]] [] 0 0 []
      (by decide) (by decide) (by decide) (by decide)⟩

/-- C4: `checkWin(grid)` returns true if and only if every non-mined cell
of the (rectangular) grid is revealed; the revealed state of mined cells is
irrelevant, so a win is reported with all mines still hidden, including on
degenerate grids whose every cell is mined. -/
theorem checkWin_iff_all_safe_revealed :
    ∀ (g : Grid), isRect g →
      (checkWin g = true ↔
        ∀ (r c : Nat) (cell : Cell), getCell? g r c = some cell →
          cell.hasMine = false → cell.revealed = true) :=
  fun _ hrect => checkWin_eq_true_iff hrect

/-- C4 witness: the degenerate all-mines grid with every mine still hidden
is reported as won. -/
theorem checkWin_iff_all_safe_revealed_witness : checkWin allMinesGrid = true :=
  (checkWin_iff_all_safe_revealed allMinesGrid (by decide)).mpr (by
    intro r c cell hcell hmine
    exfalso
    cases r with
    | zero =>
      cases c with
      | zero =>
        have hc : cell = mineCell := by
          rw [show getCell? allMinesGrid 0 0 = some mineCell from rfl] at hcell
          exact (Option.some_inj.mp hcell).symm
        rw [hc] at hmine
        exact absurd hmine (by decide)
      | succ n => simp [allMinesGrid, getCell?, mineCell] at hcell
    | succ n => simp [allMinesGrid, getCell?] at hcell)

/-- C6: `revealCellsDFS` is idempotent: on a (nonempty rectangular) grid,
running it a second time from the same seed on the grid produced by the
first run changes nothing. -/
theorem revealCellsDFS_idempotent :
    ∀ (g : Grid), isRect g → 0 < numRows g → ∀ (row col : Int),
      revealCellsDFS (revealCellsDFS g row col) row col = revealCellsDFS g row col :=
  fun _ hrect _ row col => revealCellsDFS_twice hrect row col

/-- C6 witness: a second flood from `(0,0)` on the already-flooded
corner-mine grid returns it unchanged. -/
theorem revealCellsDFS_idempotent_witness :
    revealCellsDFS (revealCellsDFS cornerMineCounted 0 0) 0 0 =
      revealCellsDFS cornerMineCounted 0 0 :=
  revealCellsDFS_idempotent cornerMineCounted (by decide) (by decide) 0 0

/-- C10: `revealCellsDFS` only ever turns `revealed` from false to true:
on a (nonempty rectangular) grid, every cell present before the call is
present after it with identical `hasMine`, `flagged` and `adjacentMines`
fields, and a cell revealed before the call is still revealed after it. -/
theorem revealCellsDFS_frame :
    ∀ (g : Grid), isRect g → 0 < numRows g →
      ∀ (row col : Int) (i j : Nat) (cell : Cell), getCell? g i j = some cell →
        ∃ cell2 : Cell, getCell? (revealCellsDFS g row col) i j = some cell2 ∧
          cell2.hasMine = cell.hasMine ∧ cell2.flagged = cell.flagged ∧
          cell2.adjacentMines = cell.adjacentMines ∧
          (cell.revealed = true → cell2.revealed = true) := by
  intro g _ _ row col i j cell hcell
  obtain ⟨b, hb⟩ := dfsLoop_cell (numRows g) (numCols g) (9 * (numRows g * numCols g) + 1)
    g [] [(row, col)] i j
  rw [hcell, Option.map_some'] at hb
  refine ⟨{ cell with revealed := cell.revealed || b }, hb, rfl, rfl, rfl, ?_⟩
  intro hrev
  simp [hrev]

/-- C10 witness: the already-revealed seed cell of a flooded grid stays
revealed and keeps its other fields across another flood call. -/
theorem revealCellsDFS_frame_witness :
    ∃ cell2 : Cell, getCell? (revealCellsDFS cornerMineCounted 1 1) 2 2 = some cell2 ∧
      cell2.hasMine = (⟨true, -1, false, false⟩ : Cell).hasMine ∧
      cell2.flagged = (⟨true, -1, false, false⟩ : Cell).flagged ∧
      cell2.adjacentMines = (⟨true, -1, false, false⟩ : Cell).adjacentMines ∧
      ((⟨true, -1, false, false⟩ : Cell).revealed = true → cell2.revealed = true) :=
  revealCellsDFS_frame cornerMineCounted (by decide) (by decide) 1 1 2 2
    ⟨true, -1, false, false⟩ (by decide)

/-- C3: on a fresh grid of positive dimensions, with `mineCount` not
exceeding the eligible-cell count, `placeMines` marks exactly `mineCount`
cells as mines and keeps the safe zone mine-free: the single cell
`(safeRow, safeCol)` for the shuffle variant of `gameLogic.js`, and the
whole clipped 3x3 neighborhood of the click for the rejection-sampling
variant of `multisweeper.ts` (whose runs are the terminating executions,
`= some g2`, of its sampling loop). -/
theorem placeMines_spec :
    (∀ (rows cols sr sc mineCount : Nat) (rand : Nat → Nat),
      (∀ n, rand n ≤ n) → 0 < rows → 0 < cols →
      mineCount ≤ (eligibleSingle rows cols sr sc).card →
      (minedCells (GameLogic.placeMines (createEmptyGrid rows cols) mineCount sr sc rand)).card
          = mineCount ∧
        ∀ cell : Cell,
          getCell? (GameLogic.placeMines (createEmptyGrid rows cols) mineCount sr sc rand) sr sc
            = some cell → cell.hasMine = false) ∧
    (∀ (rows cols mineCount : Nat) (er ec : Int) (draws : List (Nat × Nat)) (g2 : Grid),
      0 < rows → 0 < cols →
      (∀ p ∈ draws, p.1 < rows ∧ p.2 < cols) →
      Multisweeper.placeMines (createEmptyGrid rows cols) mineCount er ec draws = some g2 →
      (minedCells g2).card = mineCount ∧
        ∀ (i j : Nat) (cell : Cell), getCell? g2 i j = some cell →
          ((i : Int) - er).natAbs ≤ 1 → ((j : Int) - ec).natAbs ≤ 1 → cell.hasMine = false) := by
  constructor
  · intro rows cols sr sc mineCount rand hrand h0r h0c hcount
    constructor
    · rw [placeMinesJS_minedCells rows cols sr sc mineCount rand hrand h0r]
      have hnd : ((GameLogic.shuffle (GameLogic.positions rows cols sr sc) rand).take
          mineCount).Nodup :=
        List.Sublist.nodup (List.take_sublist ..) (nodup_shuffle rows cols sr sc rand hrand)
      rw [List.toFinset_card_of_nodup hnd, List.length_take]
      have hlen : (GameLogic.shuffle (GameLogic.positions rows cols sr sc) rand).length =
          (GameLogic.positions rows cols sr sc).length :=
        (shuffle_perm _ rand hrand).length_eq
      rw [card_eligibleSingle] at hcount
      rw [hlen]
      omega
    · intro cell hcell
      unfold GameLogic.placeMines at hcell
      rw [numRows_createEmptyGrid, numCols_createEmptyGrid cols h0r] at hcell
      rw [getCell?_setMinesList, getCell?_createEmptyGrid] at hcell
      by_cases hb : sr < rows ∧ sc < cols
      · rw [if_pos hb, Option.map_some'] at hcell
        have hnot : (sr, sc) ∉ (GameLogic.shuffle (GameLogic.positions rows cols sr sc)
            rand).take mineCount := by
          intro hmem
          have hpos := (shuffle_perm _ rand hrand).mem_iff.mp (List.mem_of_mem_take hmem)
          exact (mem_positions.mp hpos).2.2 ⟨rfl, rfl⟩
        rw [if_neg hnot] at hcell
        rw [← Option.some_inj.mp hcell]
      · rw [if_neg hb] at hcell
        simp at hcell
  · intro rows cols mineCount er ec draws g2 h0r h0c hdr hrun
    unfold Multisweeper.placeMines at hrun
    rw [numRows_createEmptyGrid, numCols_createEmptyGrid cols h0r] at hrun
    obtain ⟨hcard, hforb, hrect2, hR2, hC2⟩ :=
      placeLoop_some_spec rows cols _ mineCount draws (createEmptyGrid rows cols) 0 g2
        (isRect_createEmptyGrid rows cols) (numRows_createEmptyGrid rows cols)
        (numCols_createEmptyGrid cols h0r) hdr
        (by rw [minedCells_createEmptyGrid]; rfl) (Nat.zero_le mineCount)
        (by rw [minedCells_createEmptyGrid]; intro p hp; exact absurd hp (Finset.not_mem_empty p))
        hrun
    refine ⟨hcard, ?_⟩
    intro i j cell hcell hd1 hd2
    by_contra hmc
    have hm : cell.hasMine = true := by
      cases hmv : cell.hasMine
      · exact absurd hmv hmc
      · rfl
    obtain ⟨hib, hjb⟩ := getCell?_bounds hrect2 hcell
    have hmem : (i, j) ∈ minedCells g2 := by
      unfold minedCells
      rw [Finset.mem_filter, Finset.mem_product, Finset.mem_range, Finset.mem_range]
      exact ⟨⟨hib, hjb⟩, by rw [getCellD_of_getCell? hcell]; exact hm⟩
    apply hforb (i, j) hmem
    apply mem_forbiddenList.mpr
    rw [hR2] at hib
    rw [hC2] at hjb
    exact ⟨⟨by omega, by omega, by omega, by omega⟩, hd1, hd2⟩

/-- C3 witness: a 2x2 grid with one shuffled mine avoiding `(0,0)`, and a
4x4 grid where the sampled draw `(3,3)` lands outside the 3x3 zone of the
click at `(0,0)`. -/
theorem placeMines_spec_witness :
    ((minedCells (GameLogic.placeMines (createEmptyGrid 2 2) 1 0 0 (fun _ => 0))).card = 1 ∧
      ∀ cell : Cell,
        getCell? (GameLogic.placeMines (createEmptyGrid 2 2) 1 0 0 (fun _ => 0)) 0 0
          = some cell → cell.hasMine = false) ∧
    ((minedCells (setMine (createEmptyGrid 4 4) 3 3)).card = 1 ∧
      ∀ (i j : Nat) (cell : Cell), getCell? (setMine (createEmptyGrid 4 4) 3 3) i j = some cell →
        ((i : Int) - 0).natAbs ≤ 1 → ((j : Int) - 0).natAbs ≤ 1 → cell.hasMine = false) :=
  ⟨placeMines_spec.1 2 2 0 0 1 (fun _ => 0) (fun n => Nat.zero_le n) (by decide) (by decide)
      (by decide),
    placeMines_spec.2 4 4 1 0 0 [(3, 3)] (setMine (createEmptyGrid 4 4) 3 3) (by decide)
      (by decide) (by decide) (by decide)⟩

/-- C7 counterexample: with `mineCount = 5` on a 1x2 grid (one eligible
cell), the shuffle-based `placeMines` of `gameLogic.js` does not throw and
signals no failure: `slice(0, 5)` silently clamps, the call completes
normally and returns a grid carrying a single mine instead of five; and
the rejection-sampling variant exhausts any finite draw stream without
completing (it would loop forever). -/
theorem placeMines_overconstrained_counterexample :
    GameLogic.placeMines (createEmptyGrid 1 2) 5 0 0 (fun _ => 0) =
      [[⟨false, 0, false, false⟩, ⟨true, 0, false, false⟩]] ∧
    (minedCells (GameLogic.placeMines (createEmptyGrid 1 2) 5 0 0 (fun _ => 0))).card = 1 ∧
    Multisweeper.placeMines (createEmptyGrid 1 2) 1 0 0 [(0, 0), (0, 1)] = none := by
  decide

/-- C7 amended: when `mineCount` is at least the number of eligible cells,
the shuffle-based variant completes silently (no throw, no failure signal),
marking every eligible cell and nothing else as a mine; the
rejection-sampling variant never terminates: it returns `none` on every
finite stream of draws, which models an infinite loop. -/
theorem placeMines_overconstrained_behavior :
    (∀ (rows cols sr sc mineCount : Nat) (rand : Nat → Nat),
      (∀ n, rand n ≤ n) → 0 < rows → 0 < cols →
      (eligibleSingle rows cols sr sc).card ≤ mineCount →
      minedCells (GameLogic.placeMines (createEmptyGrid rows cols) mineCount sr sc rand) =
        eligibleSingle rows cols sr sc) ∧
    (∀ (rows cols mineCount : Nat) (er ec : Int) (draws : List (Nat × Nat)),
      0 < rows → 0 < cols →
      (∀ p ∈ draws, p.1 < rows ∧ p.2 < cols) →
      (eligibleNbhd rows cols er ec).card < mineCount →
      Multisweeper.placeMines (createEmptyGrid rows cols) mineCount er ec draws = none) := by
  constructor
  · intro rows cols sr sc mineCount rand hrand h0r h0c hcount
    rw [placeMinesJS_minedCells rows cols sr sc mineCount rand hrand h0r]
    have hlen : (GameLogic.shuffle (GameLogic.positions rows cols sr sc) rand).length =
        (GameLogic.positions rows cols sr sc).length :=
      (shuffle_perm _ rand hrand).length_eq
    rw [card_eligibleSingle] at hcount
    rw [List.take_of_length_le (by omega)]
    rw [List.toFinset_eq_of_perm _ _ (shuffle_perm _ rand hrand)]
    exact positions_toFinset rows cols sr sc
  · intro rows cols mineCount er ec draws h0r h0c hdr hover
    unfold Multisweeper.placeMines
    rw [numRows_createEmptyGrid, numCols_createEmptyGrid cols h0r]
    apply placeLoop_eq_none rows cols _ mineCount
      (by rw [filter_forb_eq_eligibleNbhd]; exact hover) draws (createEmptyGrid rows cols) 0
      (isRect_createEmptyGrid rows cols) (numRows_createEmptyGrid rows cols)
      (numCols_createEmptyGrid cols h0r) hdr
      (by rw [minedCells_createEmptyGrid]; rfl)
      (by rw [minedCells_createEmptyGrid]; intro p hp; exact absurd hp (Finset.not_mem_empty p))

/-- C7 amended witness: the over-constrained 1x2 instances of both
variants. -/
theorem placeMines_overconstrained_behavior_witness :
    minedCells (GameLogic.placeMines (createEmptyGrid 1 2) 5 0 0 (fun _ => 0)) =
      eligibleSingle 1 2 0 0 ∧
    Multisweeper.placeMines (createEmptyGrid 1 2) 1 0 0 [(0, 0), (0, 1)] = none :=
  ⟨placeMines_overconstrained_behavior.1 1 2 0 0 5 (fun _ => 0) (fun n => Nat.zero_le n)
      (by decide) (by decide) (by decide),
    placeMines_overconstrained_behavior.2 1 2 1 0 0 [(0, 0), (0, 1)] (by decide) (by decide)
      (by decide) (by decide)⟩

/-- Unfolding of the endpoint on a present grid. -/
theorem revealEndpoint_some (g : Grid) (row col : Int) :
    revealEndpoint (some g) row col =
      if g.length = 0 then RevealResponse.badRequest
      else
        match lookupCell g row col with
        | none => RevealResponse.thrown
        | some cell =>
          if (cell.revealed || cell.flagged) = true then RevealResponse.ok g
          else RevealResponse.ok (revealCellsDFS (deepCopyGrid g) row col) := rfl

/-- C5: the flag field gates only the entry point, not the propagation.
The `/reveal` handler returns the grid unchanged (a success response, not
an error) when the target cell is already revealed or flagged, while
`revealCellsDFS` itself never reads the `flagged` field: it commutes with
every transformation of the flags, so flagged cells reached during flood
expansion are revealed exactly as unflagged ones. -/
theorem reveal_flag_gate_asymmetry :
    (∀ (g : Grid) (row col : Int) (cell : Cell), g.length ≠ 0 →
      lookupCell g row col = some cell → (cell.revealed = true ∨ cell.flagged = true) →
      revealEndpoint (some g) row col = RevealResponse.ok g) ∧
    (∀ (f : Bool → Bool) (g : Grid) (row col : Int),
      revealCellsDFS (mapFlagged f g) row col = mapFlagged f (revealCellsDFS g row col)) := by
  constructor
  · intro g row col cell hlen hlook hgate
    rw [revealEndpoint_some, if_neg hlen, hlook]
    show (if (cell.revealed || cell.flagged) = true then RevealResponse.ok g
      else RevealResponse.ok (revealCellsDFS (deepCopyGrid g) row col)) = RevealResponse.ok g
    rw [if_pos ?_]
    rcases hgate with h | h <;> simp [h]
  · intro f g row col
    exact revealCellsDFS_mapFlagged f g row col

/-- C5 witness: a flagged single-cell grid is returned unchanged by the
endpoint, and flipping every flag commutes with a concrete flood. -/
theorem reveal_flag_gate_asymmetry_witness :
    revealEndpoint (some [[⟨false, 0, false, true⟩]]) 0 0 =
      RevealResponse.ok [[⟨false, 0, false, true⟩]] ∧
    revealCellsDFS (mapFlagged not cornerMineCounted) 0 0 =
      mapFlagged not (revealCellsDFS cornerMineCounted 0 0) :=
  ⟨reveal_flag_gate_asymmetry.1 [[⟨false, 0, false, true⟩]] 0 0 ⟨false, 0, false, true⟩
      (by decide) (by decide) (Or.inr (by decide)),
    reveal_flag_gate_asymmetry.2 not cornerMineCounted 0 0⟩

/-- C8 counterexample: the `/reveal` handler does not validate coordinates
or grid shape.  On the valid 1x1 grid with the out-of-range coordinate
`(1,0)`, and on a ragged grid at `(1,1)`, the handler's own indexing
throws a `TypeError` instead of producing a rejection response. -/
theorem reveal_boundary_counterexample :
    revealEndpoint (some [[⟨false, 0, false, false⟩]]) 1 0 = RevealResponse.thrown ∧
    revealEndpoint (some [[⟨false, 0, false, false⟩, ⟨false, 0, false, false⟩],
      [⟨false, 0, false, false⟩]]) 1 1 = RevealResponse.thrown := by
  decide

/-- C8 amended: the reveal boundary rejects only a missing or empty grid
(the 400 `Invalid grid data` response) before indexing; out-of-range
coordinates and ragged rows are not validated, and on such input the
handler's direct `grid[row][col]` access raises an exception before any
grid is produced or mutated. -/
theorem reveal_boundary_behavior :
    (∀ (row col : Int), revealEndpoint none row col = RevealResponse.badRequest) ∧
    (∀ (g : Grid) (row col : Int), g.length = 0 →
      revealEndpoint (some g) row col = RevealResponse.badRequest) ∧
    (∀ (g : Grid) (row col : Int), g.length ≠ 0 → lookupCell g row col = none →
      revealEndpoint (some g) row col = RevealResponse.thrown) := by
  refine ⟨fun row col => rfl, ?_, ?_⟩
  · intro g row col hlen
    rw [revealEndpoint_some, if_pos hlen]
  · intro g row col hlen hlook
    rw [revealEndpoint_some, if_neg hlen, hlook]

/-- C8 amended witness: the three boundary behaviors at concrete inputs. -/
theorem reveal_boundary_behavior_witness :
    revealEndpoint none 0 0 = RevealResponse.badRequest ∧
    revealEndpoint (some []) 0 0 = RevealResponse.badRequest ∧
    revealEndpoint (some [[⟨false, 0, false, false⟩]]) (-1) 0 = RevealResponse.thrown :=
  ⟨reveal_boundary_behavior.1 0 0,
    reveal_boundary_behavior.2.1 [] 0 0 (by decide),
    reveal_boundary_behavior.2.2 [[⟨false, 0, false, false⟩]] (-1) 0 (by decide) (by decide)⟩

/-- C9: the reveal endpoint never mutates the caller-supplied grid.  For
every grid whose target cell is unrevealed and unflagged, the handler's
response is the flood of the deep copy `grid.map(row => row.map(cell =>
({ ...cell })))` — a fresh structure every one of whose cells agrees with
the original in all four fields — so the caller's grid object is never
written through: in this embedding the copy is proven field-for-field equal
to the original, and all mutation is confined to it. -/
theorem reveal_defensive_copy :
    ∀ (g : Grid) (row col : Int) (cell : Cell), g.length ≠ 0 →
      lookupCell g row col = some cell → cell.revealed = false → cell.flagged = false →
      revealEndpoint (some g) row col =
        RevealResponse.ok (revealCellsDFS (deepCopyGrid g) row col) ∧
      deepCopyGrid g = g := by
  intro g row col cell hlen hlook hrev hflag
  refine ⟨?_, deepCopyGrid_eq g⟩
  rw [revealEndpoint_some, if_neg hlen, hlook]
  show (if (cell.revealed || cell.flagged) = true then RevealResponse.ok g
    else RevealResponse.ok (revealCellsDFS (deepCopyGrid g) row col)) =
    RevealResponse.ok (revealCellsDFS (deepCopyGrid g) row col)
  rw [if_neg (by rw [hrev, hflag]; decide)]

/-- C9 witness: the endpoint floods the deep copy of the corner-mine grid,
and the copy equals the original. -/
theorem reveal_defensive_copy_witness :
    revealEndpoint (some cornerMineCounted) 0 0 =
      RevealResponse.ok (revealCellsDFS (deepCopyGrid cornerMineCounted) 0 0) ∧
    deepCopyGrid cornerMineCounted = cornerMineCounted :=
  reveal_defensive_copy cornerMineCounted 0 0 ⟨false, 0, false, false⟩ (by decide) (by decide)
    (by decide) (by decide)
